import Mathlib

/-! # TSV ingestion pipeline (wybin4/biocad): parser, watcher, worker pool, read API

A shallow embedding of `internal/processor/parser.go`, `internal/processor/worker.go`,
of the pagination of `internal/api/handler.go` and of the parts of
`internal/db/mongodb.go` they call, followed by the theorems that settle the
properties of the specification.

Conventions of the embedding

* A Go call that can return a value, return an error, or panic is a `Res`.
* Go `int` and `int64` are 64 bits wide; values are `Int`, and the bounds are
  written out where the code can reach them.
* A file is given by what successive `csv.Reader.Read` calls deliver for it
  (`ReadResult`); after the last element every further call delivers `io.EOF`.
* A path is a directory together with a base name.
* Object identifiers (`primitive.NewObjectID`) are left out of the records: they
  are fresh random values that no function of the pipeline reads back (the
  `ID.IsZero` branches of the store never run on a fresh identifier).
-/

namespace Biocad

/-! ## Outcomes -/

/-- Outcome of a Go call: a value, a returned error, or a run-time panic. -/
inductive Res (α : Type) where
  | ok (val : α)
  | err (msg : String)
  | panic
deriving DecidableEq, Repr

/-! ## `strings.TrimSpace` and `strconv.Atoi` -/

/-- White space in the sense of Go `unicode.IsSpace`. -/
def isSpace (c : Char) : Bool :=
  let n := c.toNat
  (9 ≤ n && n ≤ 13) || n == 32 || n == 0x85 || n == 0xA0 || n == 0x1680 ||
  (0x2000 ≤ n && n ≤ 0x200A) || n == 0x2028 || n == 0x2029 || n == 0x202F ||
  n == 0x205F || n == 0x3000

/-- Go `strings.TrimSpace` on the characters of a string. -/
def trimSpaceChars (cs : List Char) : List Char :=
  ((cs.dropWhile isSpace).reverse.dropWhile isSpace).reverse

/-- Go `strings.TrimSpace`: leading and trailing white space removed. -/
def TrimSpace (s : String) : String := String.mk (trimSpaceChars s.data)

/-- Largest Go `int` (64-bit). -/
def maxInt : Int := 9223372036854775807

/-- Smallest Go `int` (64-bit). -/
def minInt : Int := -9223372036854775808

/-- Value of an ASCII decimal digit. -/
def digitVal (c : Char) : Option Nat :=
  if 48 ≤ c.toNat ∧ c.toNat ≤ 57 then some (c.toNat - 48) else none

/-- Value of a non-empty run of ASCII decimal digits, read left to right with
the accumulator `acc`; `none` as soon as a character is not a digit. -/
def digitsValueAux : List Char → Nat → Option Nat
  | [], acc => some acc
  | c :: cs, acc =>
    match digitVal c with
    | some d => digitsValueAux cs (acc * 10 + d)
    | none => none

/-- Value of a string of decimal digits; `none` for the empty string and for a
string with any other character. -/
def digitsValue (cs : List Char) : Option Nat :=
  match cs with
  | [] => none
  | _ :: _ => digitsValueAux cs 0

/-- Go `strconv.Atoi` (= `ParseInt(s, 10, 0)`): the value and whether the error
is nil. A syntax error gives 0; a numeral out of the `int` range gives the
nearest bound together with a range error. -/
def Atoi (s : String) : Int × Bool :=
  match s.data with
  | [] => (0, false)
  | c :: cs =>
    let neg := c == '-'
    let ds := if c == '+' || c == '-' then cs else c :: cs
    match digitsValue ds with
    | none => (0, false)
    | some v =>
      if neg then
        if (v : Int) > 9223372036854775808 then (minInt, false) else (-(v : Int), true)
      else
        if (v : Int) ≥ 9223372036854775808 then (maxInt, false) else ((v : Int), true)

/-- Source `mustAtoi` of parser.go: the value of `strconv.Atoi`, error dropped. -/
def mustAtoi (s : String) : Int := (Atoi s).1

/-! ## Records (`internal/models/models.go`) -/

/-- Source `models.DeviceData`; the fields `Parse` never sets keep Go zero values.
The Go field `Type` is named `Kind` here, `Type` being reserved. -/
structure DeviceData where
  RowNum : Int
  MQTT : String := ""
  Inventory : String
  UnitGUID : String
  MsgID : String
  Text : String
  Context : String := ""
  Class : String
  Level : Int
  Area : String
  Addr : String
  Block : String := ""
  Kind : String := ""
  Bit : Int := 0
  InvertBit : Int := 0
  FileName : String
  CreatedAt : Nat
deriving DecidableEq, Repr

/-! ## Paths and the file system -/

/-- A file path: the directory and the base name of the file in it. Paths are
kept in the clean form `filepath.Join` produces; a file or directory is
identified by its clean name (the model has no symbolic or hard links and one
working directory). -/
structure Path where
  dir : String
  base : String
deriving DecidableEq, Repr

/-- The pieces of a path between its slashes; an empty piece stands at a
leading, a trailing or a doubled slash. -/
def splitSlash : List Char → List (List Char)
  | [] => [[]]
  | c :: cs =>
    if c = '/' then [] :: splitSlash cs
    else
      match splitSlash cs with
      | [] => [[c]]
      | x :: xs => (c :: x) :: xs

/-- Whether a path starts with a slash. -/
def isRooted : List Char → Bool
  | c :: _ => c = '/'
  | [] => false

/-- One piece of a path in the loop of Go `filepath.Clean`: an empty piece and
`.` are dropped; `..` removes the last kept piece, is dropped at the root, and
is kept at the start of a relative path; any other piece is kept. -/
def cleanStep (rooted : Bool) (stack : List (List Char)) (comp : List Char) :
    List (List Char) :=
  if comp = [] ∨ comp = ['.'] then stack
  else if comp = ['.', '.'] then
    match stack.getLast? with
    | none => if rooted then stack else stack ++ [comp]
    | some top => if top = ['.', '.'] then stack ++ [comp] else stack.dropLast
  else stack ++ [comp]

/-- The pieces Go `filepath.Clean` keeps of a path. -/
def cleanComps (cs : List Char) : List (List Char) :=
  (splitSlash cs).foldl (cleanStep (isRooted cs)) []

/-- The path made of the kept pieces: `/` in front when rooted, `.` when a
relative path keeps nothing. -/
def renderPath (rooted : Bool) (stack : List (List Char)) : String :=
  if rooted then String.mk ('/' :: List.intercalate ['/'] stack)
  else if stack = [] then "." else String.mk (List.intercalate ['/'] stack)

/-- Go `filepath.Clean` (Unix): the shortest path naming the same place by
purely lexical processing. -/
def cleanPath (s : String) : String := renderPath (isRooted s.data) (cleanComps s.data)

/-- Go `filepath.Join(dir, name)`, given as the pair of `filepath.Dir` and
`filepath.Base` of the joined path: an empty `dir` is ignored, the elements are
joined by a slash and the result is cleaned. -/
def Join (dir name : String) : Path :=
  let s := if dir = "" then name.data else dir.data ++ '/' :: name.data
  match (cleanComps s).getLast? with
  | none => if isRooted s then { dir := "/", base := "/" } else { dir := ".", base := "." }
  | some last => { dir := renderPath (isRooted s) (cleanComps s).dropLast, base := String.mk last }

/-- Go `filepath.Base`. -/
def Base (p : Path) : String := p.base

/-- Go `filepath.Join(parent, name)` as the name of a directory: the first
non-empty element and what follows it, joined by a slash and cleaned; the empty
string when both elements are empty. -/
def subDir (parent name : String) : String :=
  if parent ≠ "" then cleanPath (parent ++ "/" ++ name)
  else if name ≠ "" then cleanPath name
  else ""

/-- The text of a path, as it appears in the message of a failed `os.Open`. -/
def pathString (p : Path) : String :=
  if p.dir = "." then p.base
  else if p.dir = "/" then (if p.base = "/" then "/" else "/" ++ p.base)
  else p.dir ++ "/" ++ p.base

/-- A plain file name: not empty, without a slash, and neither `.` nor `..`. -/
def plainName (name : String) : Prop :=
  name.data ≠ [] ∧ '/' ∉ name.data ∧ name.data ≠ ['.'] ∧ name.data ≠ ['.', '.']

/-- Go `hasMeta` of `path/filepath` (Unix): whether the text holds one of the
characters `*`, `?`, `[` or the backslash, which `Glob` reads as a pattern. -/
def hasMeta (s : String) : Bool :=
  s.data.any (fun c => c = '*' ∨ c = '?' ∨ c = '[' ∨ c = Char.ofNat 92)

/-- Whether a directory name is relative and stays below the working directory:
it is not rooted and its clean form does not start with `..`. -/
def staysBelow (s : String) : Bool :=
  !isRooted s.data && decide ((cleanComps s.data).head? ≠ some ['.', '.'])

/-- Whether two directory names are resolved from the same place, so that
their clean forms are equal exactly when they name the same directory: both are
absolute, or both are relative and stay below the working directory. -/
def anchoredAlike (a b : String) : Bool :=
  (isRooted a.data && isRooted b.data) || (staysBelow a && staysBelow b)

/-- What one `csv.Reader.Read` call delivers: a row of fields or an error. -/
inductive ReadResult where
  | row (fields : List String)
  | fail (msg : String)
deriving DecidableEq, Repr

/-- The file system: the files that exist, each with what the csv reader
delivers for it. The order of the entries is the order of a directory listing. -/
abbrev FS := List (Path × List ReadResult)

/-- Content of the file at `p`, `none` when there is no such file (`os.Open`). -/
def readFile : FS → Path → Option (List ReadResult)
  | [], _ => none
  | (q, content) :: rest, p => if q = p then some content else readFile rest p

/-- The file system without the file at `p`. -/
def removeFile (fs : FS) (p : Path) : FS := fs.filter (fun e => e.1 ≠ p)

/-- Go `os.Rename`: `none` when `oldpath` does not exist; an existing file at
`newpath` is replaced. -/
def Rename (fs : FS) (oldpath newpath : Path) : Option FS :=
  match readFile fs oldpath with
  | none => none
  | some content =>
    if oldpath = newpath then some fs
    else some (removeFile (removeFile fs oldpath) newpath ++ [(newpath, content)])

/-- Go `filepath.Match("*.tsv", name)`: the name ends in `.tsv` and holds no
slash. -/
def matchesTsv (name : String) : Bool :=
  ".tsv".data.isSuffixOf name.data && !name.data.contains '/'

/-- Go `glob(dir, "*.tsv", ..)` of `path/filepath`: the files of the directory
`dir` whose name matches, in listing order; each is `Join dir name`. -/
def globDir (fs : FS) (dir : String) : List Path :=
  (fs.map Prod.fst).filter (fun p => p.dir = cleanPath dir ∧ matchesTsv p.base)

/-- Go `filepath.Glob(filepath.Join(dir, "*.tsv"))`. The pattern is
`Join dir "*.tsv"`, so its directory part is the clean form of `dir`. Without a
meta character in it, the matching files of that one directory are listed. With
one, `Glob` first expands the directory part and lists the matching files of
every directory found; `metaDirs` is the result of that inner `Glob` call. How
directory names match the pattern is not modelled: every list of directories
is admitted as that result. -/
def Glob (metaDirs : List String) (fs : FS) (dir : String) : List Path :=
  if hasMeta (cleanPath dir) then (metaDirs.map (globDir fs)).flatten
  else globDir fs dir

/-! ## `TSVParser.Parse` -/

/-- The normalisation loop of `Parse` (parser.go 56-63): every field is trimmed
and appended to `cleanRow` only when the trimmed text is not empty. -/
def cleanRow : List String → List String
  | [] => []
  | field :: rest =>
    let trimmed := TrimSpace field
    if trimmed ≠ "" then trimmed :: cleanRow rest else cleanRow rest

/-- One iteration of the row loop of `Parse` after a successful read
(parser.go 56-83). Indexing `row[0]` .. `row[8]` panics when the normalised
row has fewer than nine items. `now` is the value of `time.Now()`. -/
def buildRecord (now : Nat) (fileName : String) (rowNum : Nat) (row : List String) :
    Res DeviceData :=
  match cleanRow row with
  | r0 :: r1 :: r2 :: r3 :: r4 :: r5 :: r6 :: r7 :: r8 :: _ =>
    let record : DeviceData :=
      { FileName := fileName, CreatedAt := now,
        RowNum := mustAtoi r0, Inventory := r1, UnitGUID := r2, MsgID := r3,
        Text := r4, Class := r5, Level := mustAtoi r6, Area := r7, Addr := r8 }
    if record.UnitGUID = "" ∨ record.MsgID = "" then
      Res.err ("row " ++ toString rowNum ++ ": missing required fields")
    else
      Res.ok record
  | _ => Res.panic

/-- The row loop of `Parse` (parser.go 44-89): `reads` is what the reader still
has to deliver, `rowNum` the running row number, `records` the records so far.
`clock n` is the value of `time.Now()` while row `n` is handled. -/
def parseRows (clock : Nat → Nat) (fileName : String) :
    Nat → List ReadResult → List DeviceData → Res (List DeviceData)
  | _, [], records => Res.ok records
  | rowNum, ReadResult.fail e :: _, _ =>
    Res.err ("error reading row " ++ toString rowNum ++ ": " ++ e)
  | rowNum, ReadResult.row row :: rest, records =>
    match buildRecord (clock rowNum) fileName rowNum row with
    | Res.ok record => parseRows clock fileName (rowNum + 1) rest (records ++ [record])
    | Res.err msg => Res.err msg
    | Res.panic => Res.panic

/-- Source `TSVParser.Parse`: the file at `filePath` is opened, its first two
rows are read and dropped, and the row loop runs from row 3. -/
def Parse (clock : Nat → Nat) (fs : FS) (filePath : Path) (fileName : String) :
    Res (List DeviceData) :=
  match readFile fs filePath with
  | none =>
    Res.err ("failed to open file: open " ++ pathString filePath ++
      ": no such file or directory")
  | some [] => Res.err "failed to skip first header: EOF"
  | some (ReadResult.fail e :: _) => Res.err ("failed to skip first header: " ++ e)
  | some [ReadResult.row _] => Res.err "failed to skip second header: EOF"
  | some (ReadResult.row _ :: ReadResult.fail e :: _) =>
    Res.err ("failed to skip second header: " ++ e)
  | some (ReadResult.row _ :: ReadResult.row _ :: rest) => parseRows clock fileName 3 rest []

/-- The list the specification describes for a row: every field trimmed, then
every empty field deleted. -/
def normalizedFields (row : List String) : List String :=
  (row.map TrimSpace).filter (fun s => s ≠ "")

/-- The integer a decimal numeral denotes: an optional sign followed by one or
more ASCII digits; `none` for any other text. -/
def numeralValue (s : String) : Option Int :=
  match s.data with
  | [] => none
  | c :: cs =>
    if c = '-' then (digitsValue cs).map (fun v => -(v : Int))
    else if c = '+' then (digitsValue cs).map (fun v => (v : Int))
    else (digitsValue (c :: cs)).map (fun v => (v : Int))

/-- The value the specification gives a numeric field, made exact: the integer
the numeral denotes when it lies between `minInt` and `maxInt`, the nearer of
the two bounds when it lies outside, and 0 when the text is not a numeral. -/
def fieldValue (s : String) : Int :=
  match numeralValue s with
  | none => 0
  | some v => if v > maxInt then maxInt else if v < minInt then minInt else v

/-- The record the specification assigns to the normalised fields `items` of a
row: the fields by position (an absent item reads as ""). -/
def mappedRecord (now : Nat) (fileName : String) (items : List String) : DeviceData :=
  { FileName := fileName, CreatedAt := now,
    RowNum := fieldValue (items.getD 0 ""), Inventory := items.getD 1 "",
    UnitGUID := items.getD 2 "", MsgID := items.getD 3 "", Text := items.getD 4 "",
    Class := items.getD 5 "", Level := fieldValue (items.getD 6 ""),
    Area := items.getD 7 "", Addr := items.getD 8 "" }

/-- The records of the rows `rows`, the first of which has row number `n`. -/
def rowRecords (clock : Nat → Nat) (fileName : String) : Nat → List (List String) → List DeviceData
  | _, [] => []
  | n, row :: rest =>
    mappedRecord (clock n) fileName (normalizedFields row) :: rowRecords clock fileName (n + 1) rest

/-! ## The store (`internal/db/mongodb.go`) -/

/-- Source `models.ProcessedFile`: a ledger row. -/
structure ProcessedFile where
  FileName : String
  FilePath : Path
  ProcessedAt : Nat
  Status : String
  ErrorMsg : String := ""
deriving DecidableEq, Repr

/-- Source `models.ProcessingError`. -/
structure ProcessingError where
  FileName : String
  UnitGUID : String := ""
  ErrorMsg : String
  CreatedAt : Nat
deriving DecidableEq, Repr

/-- Source `models.PaginatedResponse`. -/
structure PaginatedResponse where
  Data : List DeviceData
  Total : Int
  Page : Int
  Limit : Int
  TotalPages : Int
deriving DecidableEq, Repr

/-- The three collections of the database, each in insertion order. The
collection `processed_files` carries a unique index on `file_name`. -/
structure MongoDB where
  deviceData : List DeviceData := []
  processedFiles : List ProcessedFile := []
  processingErrs : List ProcessingError := []
deriving DecidableEq, Repr

/-- Source `MongoDB.IsFileProcessed`: `fault` is the driver error of
`CountDocuments`, if it fails. -/
def IsFileProcessed (db : MongoDB) (fault : Option String) (fileName : String) :
    Except String Bool :=
  match fault with
  | some e => Except.error e
  | none =>
    let count := (db.processedFiles.filter (fun f => f.FileName = fileName)).length
    Except.ok (decide (count > 0))

/-- Source `MongoDB.SaveProcessedFile`: `InsertOne` into `processed_files`. The
insert fails with `fault` when the driver fails, and with a duplicate-key error
when a row with the same `file_name` is present (unique index). -/
def SaveProcessedFile (db : MongoDB) (fault : Option String) (file : ProcessedFile) :
    Except String MongoDB :=
  match fault with
  | some e => Except.error e
  | none =>
    if db.processedFiles.any (fun f => f.FileName = file.FileName) then
      Except.error "E11000 duplicate key error collection: processed_files index: file_name"
    else
      Except.ok { db with processedFiles := db.processedFiles ++ [file] }

/-- Source `MongoDB.SaveDeviceData`: nothing is sent for an empty batch;
otherwise `InsertMany` stores the whole batch or fails with `fault`. -/
def SaveDeviceData (db : MongoDB) (fault : Option String) (data : List DeviceData) :
    Except String MongoDB :=
  if data.length = 0 then Except.ok db
  else
    match fault with
    | some e => Except.error e
    | none => Except.ok { db with deviceData := db.deviceData ++ data }

/-- Source `MongoDB.SaveProcessingError`: `InsertOne` into `processing_errors`. -/
def SaveProcessingError (db : MongoDB) (fault : Option String) (e : ProcessingError) :
    Except String MongoDB :=
  match fault with
  | some msg => Except.error msg
  | none => Except.ok { db with processingErrs := db.processingErrs ++ [e] }

/-- Go `int64` wrap-around of an exact integer. -/
def wrapInt64 (x : Int) : Int :=
  (x + 9223372036854775808) % 18446744073709551616 - 9223372036854775808

/-- The value a stored `DeviceData` document has under the BSON key
`timestamp`, the key `GetDeviceDataByUnitGUID` sorts on. The struct tags of
`DeviceData` name `row_num` .. `file_name` and `created_at`; no field is stored
under `timestamp`, so the key is absent from every document. -/
def timestampKey (_d : DeviceData) : Option Nat := none

/-- Order of two sort keys for a descending sort: an absent key ranks lowest. -/
def keyGe : Option Nat → Option Nat → Bool
  | _, none => true
  | none, some _ => false
  | some a, some b => decide (b ≤ a)

/-- The sort `{timestamp: -1}` of the query: descending on `timestampKey`,
documents with equal keys staying in stored order. -/
def sortTimestampDesc (docs : List DeviceData) : List DeviceData :=
  docs.insertionSort (fun a b => keyGe (timestampKey a) (timestampKey b) = true)

/-- Source `MongoDB.GetDeviceDataByUnitGUID`. `fault` is the driver error of
`CountDocuments`, `Find` or `cursor.All`, if one of them fails. The server
rejects a negative skip, reads limit 0 as no limit and a negative limit as its
absolute value. The division `total / limit` panics for `limit = 0`. -/
def GetDeviceDataByUnitGUID (db : MongoDB) (fault : Option String) (unitGUID : String)
    (page limit : Int) : Res PaginatedResponse :=
  match fault with
  | some e => Res.err e
  | none =>
    let matching := db.deviceData.filter (fun d => d.UnitGUID = unitGUID)
    let total : Int := (matching.length : Int)
    let skip := wrapInt64 ((page - 1) * limit)
    if skip < 0 then Res.err "BSON field skip value must be >= 0"
    else
      let rest := (sortTimestampDesc matching).drop skip.toNat
      let data := if limit = 0 then rest else rest.take limit.natAbs
      if limit = 0 then Res.panic
      else
        let totalPages := Int.tdiv total limit
        let totalPages := if Int.tmod total limit > 0 then wrapInt64 (totalPages + 1) else totalPages
        Res.ok { Data := data, Total := total, Page := page, Limit := limit,
                 TotalPages := totalPages }

/-! ## The worker pool (`internal/processor/worker.go`) -/

/-- Source `config.WatcherConfig` (the poll interval plays no part here). -/
structure WatcherConfig where
  InputDir : String
  OutputDir : String
  Workers : Nat := 1
deriving DecidableEq, Repr

/-- Source `Job`. -/
structure Job where
  FilePath : Path
  FileName : String
deriving DecidableEq, Repr

/-- A buffered Go channel of jobs: its capacity and the jobs waiting in it,
oldest first. -/
structure Chan where
  cap : Nat
  buf : List Job
deriving DecidableEq, Repr

/-- The state the pipeline works on: the store, the file system, the job queue
of the pool and the reports written by the generator. Three fields only record
what happened: `persisted` lists the file name of every job whose
`SaveDeviceData` call returned nil, `attempts` the device identifier of every
iteration of the report loop, and `crashed` is set once a goroutine panicked
(no `recover` exists in the program, so the process is gone). -/
structure World where
  db : MongoDB := {}
  fs : FS := []
  jobQueue : Chan
  reports : List (String × List DeviceData) := []
  persisted : List String := []
  attempts : List String := []
  crashed : Bool := false
deriving DecidableEq, Repr

/-- Source `NewWorkerPool`: the queue is `make(chan Job, 100)`. -/
def NewWorkerPool (db : MongoDB) (fs : FS) : World :=
  { db := db, fs := fs, jobQueue := { cap := 100, buf := [] } }

/-- Go map iteration: the keys of a map come in an order the run time picks,
always a rearrangement of the keys. -/
structure MapOrder where
  iter : List String → List String
  perm : ∀ keys, (iter keys).Perm keys

/-- The iteration order that yields the keys as they were inserted. -/
def MapOrder.insertion : MapOrder := { iter := fun keys => keys, perm := fun _ => List.Perm.refl _ }

/-- What the surroundings decide during one `scanDirectory` call: the error of
`filepath.Glob` (a malformed pattern), for each file name the driver error of
its `IsFileProcessed` call, and, for an input directory whose name holds a
meta character, the directories that name matches as a pattern. -/
structure ScanEnv where
  globErr : Option String := none
  checkErr : String → Option String := fun _ => none
  metaDirs : List String := []

/-- What the surroundings decide during one `processJob` call: the clock, the
map iteration order, and the error, if any, of each external call. -/
structure JobEnv where
  clock : Nat → Nat := fun _ => 0
  mapOrder : MapOrder := MapOrder.insertion
  saveDeviceDataErr : Option String := none
  saveProcessedFileErr : Option String := none
  /-- Driver error of `SaveProcessingError`, by the device identifier of the entry. -/
  saveProcessingErrorErr : String → Option String := fun _ => none
  /-- Driver error of `GetDeviceDataByUnitGUID`, by device identifier. -/
  fetchErr : String → Option String := fun _ => none
  /-- Error of `GeneratePDF`, by device identifier. -/
  renderErr : String → Option String := fun _ => none
  mkdirErr : Option String := none
  renameErr : Option String := none

/-- The send of `scanDirectory` (worker.go 87-95): a `select` with a `default`
branch, so the job is appended when the buffer has room and dropped otherwise.
No receiver takes a job while the scan runs. -/
def trySend (q : Chan) (job : Job) : Chan :=
  if q.buf.length < q.cap then { q with buf := q.buf ++ [job] } else q

/-- The loop of `scanDirectory` over the paths `Glob` returned (worker.go 73-96). -/
def scanLoop (env : ScanEnv) : List Path → World → World
  | [], w => w
  | filePath :: rest, w =>
    let fileName := Base filePath
    match IsFileProcessed w.db (env.checkErr fileName) fileName with
    | Except.error _ => scanLoop env rest w
    | Except.ok processed =>
      if processed then scanLoop env rest w
      else
        scanLoop env rest
          { w with jobQueue := trySend w.jobQueue { FilePath := filePath, FileName := fileName } }

/-- Source `WorkerPool.scanDirectory`. -/
def scanDirectory (cfg : WatcherConfig) (env : ScanEnv) (w : World) : World :=
  match env.globErr with
  | some _ => w
  | none => scanLoop env (Glob env.metaDirs w.fs cfg.InputDir) w

/-- Source `WorkerPool.getUniqueUnitGUIDs`, first loop: the keys of `guidMap`
after every record was entered, in order of first entry. -/
def guidMapKeys : List DeviceData → List String → List String
  | [], keys => keys
  | record :: rest, keys =>
    if record.UnitGUID ∈ keys then guidMapKeys rest keys
    else guidMapKeys rest (keys ++ [record.UnitGUID])

/-- Source `WorkerPool.getUniqueUnitGUIDs`: the keys of `guidMap` in map
iteration order. -/
def getUniqueUnitGUIDs (order : MapOrder) (records : List DeviceData) : List String :=
  order.iter (guidMapKeys records [])

/-- The pattern `if saveErr := wp.db.SaveProcessingError(..); saveErr != nil { log }`:
the entry is stored, or the failure is logged and the run goes on. -/
def saveProcessingErrorLogged (env : JobEnv) (w : World) (procErr : ProcessingError) : World :=
  match SaveProcessingError w.db (env.saveProcessingErrorErr procErr.UnitGUID) procErr with
  | Except.ok db => { w with db := db }
  | Except.error _ => w

/-- The pattern `if saveErr := wp.db.SaveProcessedFile(..); saveErr != nil { log }`. -/
def saveProcessedFileLogged (env : JobEnv) (w : World) (file : ProcessedFile) : World :=
  match SaveProcessedFile w.db env.saveProcessedFileErr file with
  | Except.ok db => { w with db := db }
  | Except.error _ => w

/-- Source `WorkerPool.moveFileToError`. -/
def moveFileToError (cfg : WatcherConfig) (env : JobEnv) (w : World)
    (filePath : Path) (fileName : String) : World :=
  let errorDir := subDir cfg.OutputDir "errors"
  match env.mkdirErr with
  | some _ => w
  | none =>
    let destPath := Join errorDir fileName
    match env.renameErr with
    | some _ => w
    | none =>
      match Rename w.fs filePath destPath with
      | none => w
      | some fs => { w with fs := fs }

/-- Source `WorkerPool.cleanupFile`. -/
def cleanupFile (cfg : WatcherConfig) (env : JobEnv) (w : World) (filePath : Path) : World :=
  let archiveDir := subDir cfg.OutputDir "archive"
  match env.mkdirErr with
  | some _ => w
  | none =>
    let destPath := Join archiveDir (Base filePath)
    match env.renameErr with
    | some _ => w
    | none =>
      match Rename w.fs filePath destPath with
      | none => w
      | some fs => { w with fs := fs }

/-- The report loop of `processJob` (worker.go 161-187) over the identifiers
still to handle. The second component tells whether the loop panicked. -/
def reportLoop (env : JobEnv) (job : Job) : List String → World → World × Bool
  | [], w => (w, false)
  | unitGUID :: rest, w =>
    let w := { w with attempts := w.attempts ++ [unitGUID] }
    match GetDeviceDataByUnitGUID w.db (env.fetchErr unitGUID) unitGUID 1 1000 with
    | Res.panic => (w, true)
    | Res.err _ => reportLoop env job rest w
    | Res.ok paginated =>
      match env.renderErr unitGUID with
      | some e =>
        let procErr : ProcessingError :=
          { FileName := job.FileName, UnitGUID := unitGUID,
            ErrorMsg := "Report generation error: " ++ e, CreatedAt := env.clock 2 }
        reportLoop env job rest (saveProcessingErrorLogged env w procErr)
      | none =>
        reportLoop env job rest { w with reports := w.reports ++ [(unitGUID, paginated.Data)] }

/-- Source `WorkerPool.processJob`. -/
def processJob (cfg : WatcherConfig) (env : JobEnv) (w : World) (job : Job) : World :=
  let processedFile : ProcessedFile :=
    { FileName := job.FileName, FilePath := job.FilePath, ProcessedAt := env.clock 0,
      Status := "success" }
  match Parse env.clock w.fs job.FilePath job.FileName with
  | Res.panic => { w with crashed := true }
  | Res.err msg =>
    let processedFile := { processedFile with Status := "error", ErrorMsg := msg }
    let procErr : ProcessingError :=
      { FileName := job.FileName, ErrorMsg := msg, CreatedAt := env.clock 1 }
    let w := saveProcessingErrorLogged env w procErr
    let w := saveProcessedFileLogged env w processedFile
    moveFileToError cfg env w job.FilePath job.FileName
  | Res.ok records =>
    match SaveDeviceData w.db env.saveDeviceDataErr records with
    | Except.error e =>
      let processedFile :=
        { processedFile with Status := "error", ErrorMsg := "DB error: " ++ e }
      saveProcessedFileLogged env w processedFile
    | Except.ok db =>
      let w := { w with db := db, persisted := w.persisted ++ [job.FileName] }
      let unitGUIDs := getUniqueUnitGUIDs env.mapOrder records
      match reportLoop env job unitGUIDs w with
      | (w, true) => { w with crashed := true }
      | (w, false) =>
        let w := saveProcessedFileLogged env w processedFile
        cleanupFile cfg env w job.FilePath

/-- One round of the loop of `WorkerPool.worker`: the oldest job is taken from
the queue and processed; with an empty queue the worker keeps waiting. -/
def workerStep (cfg : WatcherConfig) (env : JobEnv) (w : World) : World :=
  match w.jobQueue.buf with
  | [] => w
  | job :: rest => processJob cfg env { w with jobQueue := { w.jobQueue with buf := rest } } job

/-- The events of a run: a tick of the watcher, or a worker taking a job. -/
inductive Event where
  | scan (env : ScanEnv)
  | work (env : JobEnv)

/-- One event, run to completion; nothing runs once the process has crashed. -/
def step (cfg : WatcherConfig) (w : World) (e : Event) : World :=
  if w.crashed then w
  else
    match e with
    | Event.scan env => scanDirectory cfg env w
    | Event.work env => workerStep cfg env w

/-- A sequence of events, one after the other. -/
def run (cfg : WatcherConfig) (w : World) (events : List Event) : World :=
  events.foldl (step cfg) w

/-! ## The read API (`internal/api/handler.go`) -/

/-- The parsed query string of a request (`r.URL.Query()`): its key/value pairs
in the order they appear. -/
abbrev Query := List (String × String)

/-- Go `url.Values.Get`: the first value given for the key, "" when the key is
absent. -/
def queryGet : Query → String → String
  | [], _ => ""
  | (k, v) :: rest, key => if k = key then v else queryGet rest key

/-- Go `strconv.ParseInt(s, 10, 64)`: the value and whether the error is nil.
On a 64-bit `int` this is the function `Atoi` wraps. -/
def ParseInt64 (s : String) : Int × Bool := Atoi s

/-- Source `getPaginationParams`, on the parsed query of the request. -/
def getPaginationParams (q : Query) : Int × Int :=
  let pageStr := queryGet q "page"
  let limitStr := queryGet q "limit"
  let page : Int :=
    if pageStr ≠ "" then
      if (ParseInt64 pageStr).2 = true ∧ (ParseInt64 pageStr).1 > 0 then (ParseInt64 pageStr).1
      else 1
    else 1
  let limit : Int :=
    if limitStr ≠ "" then
      if (ParseInt64 limitStr).2 = true ∧ (ParseInt64 limitStr).1 > 0 then (ParseInt64 limitStr).1
      else 10
    else 10
  let limit : Int := if limit > 100 then 100 else limit
  (page, limit)

/-- Source `Handler.getDeviceDataByGUID`, up to the encoding of the answer: the
pagination parameters of the request go to `GetDeviceDataByUnitGUID`. -/
def getDeviceDataByGUID (db : MongoDB) (fault : Option String) (unitGUID : String)
    (q : Query) : Res PaginatedResponse :=
  GetDeviceDataByUnitGUID db fault unitGUID (getPaginationParams q).1 (getPaginationParams q).2

/-- The computation of `totalPages` in `GetDeviceDataByUnitGUID`
(mongodb.go 218-221), for a non-zero `limit`. -/
def totalPagesOf (total limit : Int) : Int :=
  let totalPages := Int.tdiv total limit
  if Int.tmod total limit > 0 then wrapInt64 (totalPages + 1) else totalPages

/-! ## Notions of the specification about pagination -/

/-- The records of a device ordered by creation timestamp, newest first. -/
def newestFirst (docs : List DeviceData) : List DeviceData :=
  docs.insertionSort (fun a b => b.CreatedAt ≤ a.CreatedAt)

/-- The page the specification describes: positions `(p-1)*l` up to
`min (p*l) n - 1` of the device's records, newest first. -/
def pageNewestFirst (db : MongoDB) (unitGUID : String) (p l : Nat) : List DeviceData :=
  ((newestFirst (db.deviceData.filter (fun d => d.UnitGUID = unitGUID))).drop ((p - 1) * l)).take l

/-- A record of device G1 created at time `t`, with sequence number `t`. -/
def stamped (t : Nat) : DeviceData :=
  { RowNum := t, Inventory := "INV1", UnitGUID := "G1", MsgID := "MSG1", Text := "text",
    Class := "working", Level := 2, Area := "ZoneA", Addr := "Addr1", FileName := "f.tsv",
    CreatedAt := t }

/-- A store holding twelve records of device G1, inserted in the order of
their creation times 1 .. 12. -/
def twelveRecords : MongoDB :=
  { deviceData := (List.range 12).map (fun i => stamped (i + 1)) }

/-! ## Notions of the specification about the watcher -/

/-- Whether the ledger holds an entry for the file name, of any status. -/
def hasLedgerEntry (db : MongoDB) (fileName : String) : Bool :=
  db.processedFiles.any (fun f => f.FileName = fileName)

/-- The job the watcher makes for a discovered path. -/
def jobOf (filePath : Path) : Job := { FilePath := filePath, FileName := Base filePath }

/-- The files a scan discovers as eligible among the listed paths, in listing
order: the ledger check of the file came back, and it found no entry. -/
def eligibleFiles (env : ScanEnv) (db : MongoDB) (paths : List Path) : List Path :=
  paths.filter (fun p => (env.checkErr (Base p)).isNone && !hasLedgerEntry db (Base p))

/-- The eligible files one scan discovers, in discovery order: none when
`Glob` fails, otherwise the eligible ones among the files `Glob` lists. -/
def discovered (cfg : WatcherConfig) (env : ScanEnv) (w : World) : List Path :=
  match env.globErr with
  | some _ => []
  | none => eligibleFiles env w.db (Glob env.metaDirs w.fs cfg.InputDir)

/-! ## Fixtures for the concrete scenarios -/

/-- A configuration with input directory `in` and output directory `out`. -/
def demoCfg : WatcherConfig := { InputDir := "in", OutputDir := "out" }

/-- A valid data row with sequence number `n` for device `guid`. -/
def demoRow (n guid : String) : ReadResult :=
  ReadResult.row [n, "INV1", guid, "MSG1", "text", "working", "2", "ZoneA", "Addr1"]

/-- A file of two header rows and three valid data rows for two devices. -/
def demoFile : List ReadResult :=
  [ReadResult.row ["h1"], ReadResult.row ["h2"], demoRow "1" "G1", demoRow "2" "G2",
   demoRow "3" "G1"]

/-- A fresh pool over an empty store, with `demoFile` as `in/f.tsv`. -/
def demoWorld : World := NewWorkerPool {} [(Join "in" "f.tsv", demoFile)]

/-- The three records `Parse` builds from `demoFile` under a clock at 0. -/
def demoRecords : List DeviceData :=
  [{ RowNum := 1, Inventory := "INV1", UnitGUID := "G1", MsgID := "MSG1", Text := "text",
     Class := "working", Level := 2, Area := "ZoneA", Addr := "Addr1", FileName := "f.tsv",
     CreatedAt := 0 },
   { RowNum := 2, Inventory := "INV1", UnitGUID := "G2", MsgID := "MSG1", Text := "text",
     Class := "working", Level := 2, Area := "ZoneA", Addr := "Addr1", FileName := "f.tsv",
     CreatedAt := 0 },
   { RowNum := 3, Inventory := "INV1", UnitGUID := "G1", MsgID := "MSG1", Text := "text",
     Class := "working", Level := 2, Area := "ZoneA", Addr := "Addr1", FileName := "f.tsv",
     CreatedAt := 0 }]

/-- The job of `in/f.tsv`. -/
def demoJob : Job := { FilePath := Join "in" "f.tsv", FileName := "f.tsv" }

/-- A fresh pool whose only file `in/bad.tsv` ends after its first header row. -/
def badWorld : World := NewWorkerPool {} [(Join "in" "bad.tsv", [ReadResult.row ["h1"]])]

/-- The job of `in/bad.tsv`. -/
def badJob : Job := { FilePath := Join "in" "bad.tsv", FileName := "bad.tsv" }

/-- A job environment in which the store rejects the batch write with `msg`. -/
def storeDown (msg : String) : JobEnv := { saveDeviceDataErr := some msg }

/-- The state after `in/f.tsv` was enqueued by two scans in a row and the first
of the two jobs ran without any fault: the second job is still queued. -/
def afterFirstOfTwoJobs : World :=
  run demoCfg demoWorld [Event.scan {}, Event.scan {}, Event.work {}]

/-- The state after `in/f.tsv` was enqueued by two scans in a row and the batch
write of the first of the two jobs failed: the second job is still queued. -/
def afterFailedFirstJob : World :=
  run demoCfg demoWorld [Event.scan {}, Event.scan {}, Event.work (storeDown "boom1")]

/-- The state `w` with its oldest queued job taken out by a worker. -/
def dequeued (w : World) : World :=
  { w with jobQueue := { w.jobQueue with buf := w.jobQueue.buf.tail } }

/-! ## Predicates used by the proofs about the worker -/

/-- The unchanged part of the state: every field but the store's
`processing_errors` collection, the ledger, the reports and the attempts. -/
structure SameCore (w w2 : World) : Prop where
  fs : w2.fs = w.fs
  persisted : w2.persisted = w.persisted
  jobQueue : w2.jobQueue = w.jobQueue
  crashed : w2.crashed = w.crashed
  deviceData : w2.db.deviceData = w.db.deviceData

/-- The relocation steps of an event do not fail: for a job run, neither the
directory creation nor the rename returns an error. -/
def relocationWorks : Event → Prop
  | Event.scan _ => True
  | Event.work env => env.mkdirErr = none ∧ env.renameErr = none

/-- The path of the file `name` of the input directory, as `Glob` returns it
when the directory name holds no meta character. -/
def inputPath (cfg : WatcherConfig) (name : String) : Path :=
  { dir := cleanPath cfg.InputDir, base := name }

/-- The invariant behind at-most-once persistence in a run of complete events:
no file name was persisted twice, and, unless the process crashed, every queued
job points at its file in the input directory, under a plain name, and no
persisted file is still in the input directory. -/
structure Inv (cfg : WatcherConfig) (w : World) : Prop where
  once : ∀ f : String, w.persisted.count f ≤ 1
  jobs : w.crashed = false →
    ∀ j ∈ w.jobQueue.buf, j.FilePath = inputPath cfg j.FileName ∧ plainName j.FileName
  gone : w.crashed = false →
    ∀ f ∈ w.persisted, readFile w.fs (inputPath cfg f) = none

/-! ## Parser: lemmas -/

theorem cleanRow_eq_normalizedFields (row : List String) :
    cleanRow row = normalizedFields row := by
  induction row with
  | nil => rfl
  | cons field rest ih =>
    by_cases h : TrimSpace field = ""
    · simp [cleanRow, normalizedFields, h] at ih ⊢
      exact ih
    · simp [cleanRow, normalizedFields, h] at ih ⊢
      exact ih

theorem cleanRow_ne_empty (row : List String) : ∀ s ∈ cleanRow row, s ≠ "" := by
  rw [cleanRow_eq_normalizedFields]
  intro s hs
  simp [normalizedFields] at hs
  exact hs.2

theorem mustAtoi_eq_fieldValue (s : String) : mustAtoi s = fieldValue s := by
  unfold mustAtoi Atoi fieldValue numeralValue
  cases hs : s.data with
  | nil => simp
  | cons c cs =>
    by_cases hm : c = '-'
    · subst hm
      cases hd : digitsValue cs with
      | none => simp [hd]
      | some v =>
        simp [hd, maxInt, minInt]
        split_ifs <;> first | rfl | omega
    · by_cases hp : c = '+'
      · subst hp
        cases hd : digitsValue cs with
        | none => simp [hd]
        | some v =>
          simp [hd, maxInt, minInt]
          split_ifs <;> first | rfl | omega
      · cases hd : digitsValue (c :: cs) with
        | none => simp [hd, hm, hp]
        | some v =>
          simp [hd, hm, hp, maxInt, minInt]
          split_ifs <;> first | rfl | omega

theorem nine_items (l : List String) (h : 9 ≤ l.length) :
    ∃ r0 r1 r2 r3 r4 r5 r6 r7 r8 tail,
      l = r0 :: r1 :: r2 :: r3 :: r4 :: r5 :: r6 :: r7 :: r8 :: tail := by
  rcases l with _ | ⟨r0, _ | ⟨r1, _ | ⟨r2, _ | ⟨r3, _ | ⟨r4, _ | ⟨r5, _ | ⟨r6, _ |
    ⟨r7, _ | ⟨r8, tail⟩⟩⟩⟩⟩⟩⟩⟩⟩
  all_goals first
    | exact ⟨_, _, _, _, _, _, _, _, _, _, rfl⟩
    | (simp at h)

/-- With nine or more normalised items the row loop builds the positional record. -/
theorem buildRecord_of_nine (now : Nat) (fileName : String) (rowNum : Nat) (row : List String)
    (h : 9 ≤ (normalizedFields row).length) :
    buildRecord now fileName rowNum row =
      Res.ok (mappedRecord now fileName (normalizedFields row)) := by
  have hne := cleanRow_ne_empty row
  rw [cleanRow_eq_normalizedFields] at hne
  obtain ⟨r0, r1, r2, r3, r4, r5, r6, r7, r8, tail, hl⟩ := nine_items _ h
  have h2 : r2 ≠ "" := hne r2 (by simp [hl])
  have h3 : r3 ≠ "" := hne r3 (by simp [hl])
  simp [buildRecord, cleanRow_eq_normalizedFields, hl, h2, h3, mappedRecord,
    mustAtoi_eq_fieldValue]

/-- With fewer than nine normalised items the row loop panics. -/
theorem buildRecord_of_short (now : Nat) (fileName : String) (rowNum : Nat) (row : List String)
    (h : (normalizedFields row).length < 9) :
    buildRecord now fileName rowNum row = Res.panic := by
  unfold buildRecord
  rw [cleanRow_eq_normalizedFields]
  split
  · rename_i heq
    rw [heq] at h
    simp at h
    omega
  · rfl

/-- The validation of line 81 never fires: no row makes the loop body return an error. -/
theorem buildRecord_ne_err (now : Nat) (fileName : String) (rowNum : Nat) (row : List String)
    (msg : String) : buildRecord now fileName rowNum row ≠ Res.err msg := by
  by_cases h : 9 ≤ (normalizedFields row).length
  · rw [buildRecord_of_nine now fileName rowNum row h]
    simp
  · rw [buildRecord_of_short now fileName rowNum row (by omega)]
    simp

theorem parseRows_of_nine (clock : Nat → Nat) (fileName : String) (rows : List (List String)) :
    ∀ (n : Nat) (acc : List DeviceData), (∀ r ∈ rows, 9 ≤ (normalizedFields r).length) →
      parseRows clock fileName n (rows.map ReadResult.row) acc =
        Res.ok (acc ++ rowRecords clock fileName n rows) := by
  induction rows with
  | nil => intro n acc _; simp [parseRows, rowRecords]
  | cons row rest ih =>
    intro n acc hlen
    have hrow := hlen row (by simp)
    have hrest : ∀ r ∈ rest, 9 ≤ (normalizedFields r).length :=
      fun r hr => hlen r (by simp [hr])
    simp only [List.map_cons, parseRows]
    rw [buildRecord_of_nine (clock n) fileName n row hrow]
    simp only []
    rw [ih (n + 1) _ hrest]
    simp [rowRecords]

theorem rowRecords_length (clock : Nat → Nat) (fileName : String) (rows : List (List String)) :
    ∀ n, (rowRecords clock fileName n rows).length = rows.length := by
  induction rows with
  | nil => intro n; rfl
  | cons row rest ih => intro n; simp [rowRecords, ih]

theorem rowRecords_getElem? (clock : Nat → Nat) (fileName : String) (rows : List (List String)) :
    ∀ (n i : Nat) (row : List String), rows[i]? = some row →
      (rowRecords clock fileName n rows)[i]? =
        some (mappedRecord (clock (n + i)) fileName (normalizedFields row)) := by
  induction rows with
  | nil => intro n i row h; simp at h
  | cons r rest ih =>
    intro n i row h
    cases i with
    | zero =>
      simp at h
      subst h
      simp [rowRecords]
    | succ j =>
      simp at h
      have := ih (n + 1) j row h
      simp only [rowRecords, List.getElem?_cons_succ]
      rw [this]
      have e : n + 1 + j = n + (j + 1) := by omega
      rw [e]

/-! ## Parser: the properties C1 - C3 -/

/-- C1, refuted as stated. The claim speaks of every data row and of the integer
value of item 0. (1) A data row with fewer than nine non-empty fields yields
no record: `Parse` panics on the index. (2) For the numeral
99999999999999999999 in item 0 the record has RowNum 9223372036854775807,
which is neither the integer the numeral denotes nor 0. -/
theorem C1_counterexample :
    Parse (fun _ => 0)
        [(Join "in" "f.tsv", [ReadResult.row ["h1"], ReadResult.row ["h2"],
          ReadResult.row ["1", "INV1", "GUID1", "MSG1"]])]
        (Join "in" "f.tsv") "f.tsv" = Res.panic ∧
    numeralValue "99999999999999999999" = some 99999999999999999999 ∧
    Parse (fun _ => 0)
        [(Join "in" "f.tsv", [ReadResult.row ["h1"], ReadResult.row ["h2"],
          ReadResult.row ["99999999999999999999", "INV1", "GUID1", "MSG1", "text", "working",
            "2", "ZoneA", "Addr1"]])]
        (Join "in" "f.tsv") "f.tsv" =
      Res.ok [{ RowNum := 9223372036854775807, Inventory := "INV1", UnitGUID := "GUID1",
                MsgID := "MSG1", Text := "text", Class := "working", Level := 2,
                Area := "ZoneA", Addr := "Addr1", FileName := "f.tsv", CreatedAt := 0 }] := by
  decide

/-- C1 (amended). For a data row that keeps at least nine fields after
normalisation, the row loop of `Parse` builds the record from the list obtained
by trimming each field and deleting the empty ones (the list the loop computes,
`cleanRow`): RowNum is the value of item 0, Inventory item 1, UnitGUID item 2,
MsgID item 3, Text item 4, Class item 5, Level the value of item 6, Area item 7,
Addr item 8, FileName the name passed in; and for a file whose first two rows
are read and whose data rows are all of that kind, `Parse` returns these
records, one per data row, in file order. The value of a numeric item
(`mustAtoi`) is the integer its numeral denotes when that fits a 64-bit int,
the nearer bound when it does not, and 0 when the item is not a numeral. The
ten-field row of the specification gives the record stated there. -/
theorem C1_parse_maps_fields_by_position (clock : Nat → Nat) (fs : FS) (filePath : Path)
    (fileName : String) (h1 h2 : List String) (rows : List (List String))
    (hfile : readFile fs filePath =
      some (ReadResult.row h1 :: ReadResult.row h2 :: rows.map ReadResult.row))
    (hlen : ∀ r ∈ rows, 9 ≤ (normalizedFields r).length) :
    (∀ (now rowNum : Nat) (row : List String), 9 ≤ (normalizedFields row).length →
      ∃ rec, buildRecord now fileName rowNum row = Res.ok rec ∧
        (normalizedFields row)[0]?.map mustAtoi = some rec.RowNum ∧
        (normalizedFields row)[1]? = some rec.Inventory ∧
        (normalizedFields row)[2]? = some rec.UnitGUID ∧
        (normalizedFields row)[3]? = some rec.MsgID ∧
        (normalizedFields row)[4]? = some rec.Text ∧
        (normalizedFields row)[5]? = some rec.Class ∧
        (normalizedFields row)[6]?.map mustAtoi = some rec.Level ∧
        (normalizedFields row)[7]? = some rec.Area ∧
        (normalizedFields row)[8]? = some rec.Addr ∧
        rec.FileName = fileName) ∧
    (∃ records, Parse clock fs filePath fileName = Res.ok records ∧
      records.length = rows.length ∧
      ∀ (i : Nat) (row : List String), rows[i]? = some row →
        ∃ rec, records[i]? = some rec ∧
          cleanRow row = normalizedFields row ∧
          (normalizedFields row)[0]?.map mustAtoi = some rec.RowNum ∧
          (normalizedFields row)[1]? = some rec.Inventory ∧
          (normalizedFields row)[2]? = some rec.UnitGUID ∧
          (normalizedFields row)[3]? = some rec.MsgID ∧
          (normalizedFields row)[4]? = some rec.Text ∧
          (normalizedFields row)[5]? = some rec.Class ∧
          (normalizedFields row)[6]?.map mustAtoi = some rec.Level ∧
          (normalizedFields row)[7]? = some rec.Area ∧
          (normalizedFields row)[8]? = some rec.Addr ∧
          rec.FileName = fileName) ∧
    (∀ s : String, mustAtoi s =
      match numeralValue s with
      | none => 0
      | some v => if v > maxInt then maxInt else if v < minInt then minInt else v) ∧
    Parse clock
        [(filePath, [ReadResult.row h1, ReadResult.row h2,
          ReadResult.row ["1", "", "INV1", "GUID1", "MSG1", "text", "working", "2", "ZoneA",
            "Addr1"]])]
        filePath fileName =
      Res.ok [{ RowNum := 1, Inventory := "INV1", UnitGUID := "GUID1", MsgID := "MSG1",
                Text := "text", Class := "working", Level := 2, Area := "ZoneA",
                Addr := "Addr1", FileName := fileName, CreatedAt := clock 3 }] := by
  refine ⟨?_, ?_, ?_, ?_⟩
  · intro now rowNum row hrow
    refine ⟨_, buildRecord_of_nine now fileName rowNum row hrow, ?_⟩
    obtain ⟨r0, r1, r2, r3, r4, r5, r6, r7, r8, tail, hl⟩ := nine_items _ hrow
    simp [hl, mappedRecord, mustAtoi_eq_fieldValue]
  · refine ⟨rowRecords clock fileName 3 rows, ?_, rowRecords_length _ _ _ _, ?_⟩
    · unfold Parse
      rw [hfile]
      simp only []
      rw [parseRows_of_nine clock fileName rows 3 [] hlen]
      simp
    · intro i row hrow
      refine ⟨_, rowRecords_getElem? clock fileName rows 3 i row hrow, ?_⟩
      have hmem : row ∈ rows := List.getElem?_mem hrow
      obtain ⟨r0, r1, r2, r3, r4, r5, r6, r7, r8, tail, hl⟩ := nine_items _ (hlen row hmem)
      refine ⟨cleanRow_eq_normalizedFields row, ?_⟩
      simp [hl, mappedRecord, mustAtoi_eq_fieldValue]
  · intro s
    rw [mustAtoi_eq_fieldValue]
    rfl
  · simp [Parse, readFile, parseRows]
    rfl

/-- C1, witness: the theorem at a file of two header rows and one data row. -/
theorem C1_parse_maps_fields_by_position_witness :
    ∃ records, Parse (fun n => n)
        [(Join "in" "a.tsv", [ReadResult.row ["h1"], ReadResult.row ["h2"],
          ReadResult.row ["7", "INV", "G ", "M", "t", "alarm", "x", "Z", "A"]])]
        (Join "in" "a.tsv") "a.tsv" = Res.ok records ∧ records.length = 1 :=
  let h := (C1_parse_maps_fields_by_position (fun n => n)
    [(Join "in" "a.tsv", [ReadResult.row ["h1"], ReadResult.row ["h2"],
      ReadResult.row ["7", "INV", "G ", "M", "t", "alarm", "x", "Z", "A"]])]
    (Join "in" "a.tsv") "a.tsv" ["h1"] ["h2"]
    [["7", "INV", "G ", "M", "t", "alarm", "x", "Z", "A"]] (by decide) (by decide)).2.1
  h.elim (fun records hr => ⟨records, hr.1, hr.2.1⟩)

/-- C2, the code at the failing inputs. A data row of nine fields whose device
identifier (third field) is blank makes `Parse` panic: it returns no error. The
same row with a tenth field is accepted, every field after the blank one
shifted left, so the record carries the message identifier as UnitGUID. No row
at all makes the loop body return the error of line 82. -/
theorem C2_blank_device_id_is_not_rejected :
    Parse (fun _ => 0)
        [(Join "in" "f.tsv", [ReadResult.row ["h1"], ReadResult.row ["h2"],
          ReadResult.row ["1", "INV1", "", "MSG1", "text", "working", "2", "ZoneA", "Addr1"]])]
        (Join "in" "f.tsv") "f.tsv" = Res.panic ∧
    Parse (fun _ => 0)
        [(Join "in" "f.tsv", [ReadResult.row ["h1"], ReadResult.row ["h2"],
          ReadResult.row ["1", "INV1", "", "MSG1", "text", "working", "2", "ZoneA", "Addr1",
            "extra"]])]
        (Join "in" "f.tsv") "f.tsv" =
      Res.ok [{ RowNum := 1, Inventory := "INV1", UnitGUID := "MSG1", MsgID := "text",
                Text := "working", Class := "2", Level := 0, Area := "Addr1",
                Addr := "extra", FileName := "f.tsv", CreatedAt := 0 }] ∧
    ∀ (now : Nat) (fileName : String) (rowNum : Nat) (row : List String) (msg : String),
      buildRecord now fileName rowNum row ≠ Res.err msg :=
  ⟨by decide, by decide, buildRecord_ne_err⟩

/-- C3, the code at the failing input. A readable file of three rows whose data
row has three fields: `Parse` panics, so it ends neither with an error nor with
records. The first two rows play no part in the result of any file. -/
theorem C3_short_row_panics :
    Parse (fun _ => 0)
        [(Join "in" "f.tsv", [ReadResult.row ["h1"], ReadResult.row ["h2"],
          ReadResult.row ["1", "INV1", "GUID1"]])]
        (Join "in" "f.tsv") "f.tsv" = Res.panic ∧
    ∀ (clock : Nat → Nat) (p : Path) (fileName : String) (h1 h2 k1 k2 : List String)
      (rest : List ReadResult),
      Parse clock [(p, ReadResult.row h1 :: ReadResult.row h2 :: rest)] p fileName =
        Parse clock [(p, ReadResult.row k1 :: ReadResult.row k2 :: rest)] p fileName :=
  ⟨by decide, fun _ _ _ _ _ _ _ _ => by simp [Parse, readFile]⟩

/-! ## File system: lemmas -/

theorem readFile_removeFile (fs : FS) (p q : Path) :
    readFile (removeFile fs p) q = if q = p then none else readFile fs q := by
  induction fs with
  | nil => simp [removeFile, readFile]
  | cons e rest ih =>
    obtain ⟨r, c⟩ := e
    unfold removeFile at ih ⊢
    by_cases hr : r = p
    · subst hr
      simp only [List.filter, ne_eq, not_true_eq_false, decide_False]
      rw [ih]
      by_cases hq : q = r
      · simp [hq]
      · have : ¬ r = q := fun h => hq h.symm
        simp [hq, readFile, this]
    · simp only [List.filter, ne_eq, hr, not_false_eq_true, decide_True, readFile]
      rw [ih]
      by_cases hrq : r = q
      · subst hrq
        simp [hr]
      · simp [hrq]

theorem readFile_append_single (fs : FS) (p q : Path) (c : List ReadResult) :
    readFile (fs ++ [(p, c)]) q =
      match readFile fs q with
      | some x => some x
      | none => if p = q then some c else none := by
  induction fs with
  | nil => simp [readFile]
  | cons e rest ih =>
    obtain ⟨r, d⟩ := e
    by_cases hrq : r = q
    · simp [readFile, hrq]
    · simp [readFile, hrq, ih]

/-- What a successful rename to another path leaves behind. -/
theorem readFile_rename (fs fs2 : FS) (src dst q : Path) (hne : src ≠ dst)
    (h : Rename fs src dst = some fs2) :
    readFile fs2 q =
      if q = dst then readFile fs src else if q = src then none else readFile fs q := by
  unfold Rename at h
  cases hsrc : readFile fs src with
  | none => simp [hsrc] at h
  | some content =>
    simp [hsrc, hne] at h
    subst h
    rw [readFile_append_single, readFile_removeFile, readFile_removeFile]
    by_cases hqd : q = dst
    · subst hqd
      simp
    · have hdq : ¬ dst = q := fun e => hqd e.symm
      by_cases hqs : q = src
      · subst hqs
        simp [hqd, hdq]
      · simp [hqd, hqs, hdq]
        cases readFile fs q <;> rfl

theorem rename_isSome (fs : FS) (src dst : Path) (content : List ReadResult)
    (h : readFile fs src = some content) : ∃ fs2, Rename fs src dst = some fs2 := by
  unfold Rename
  rw [h]
  by_cases e : src = dst
  · exact ⟨fs, by simp [e]⟩
  · exact ⟨removeFile (removeFile fs src) dst ++ [(dst, content)], by simp [e]⟩

theorem rename_none (fs : FS) (src dst : Path) (h : readFile fs src = none) :
    Rename fs src dst = none := by
  unfold Rename
  rw [h]

theorem rename_self (fs fs2 : FS) (src : Path) (h : Rename fs src src = some fs2) : fs2 = fs := by
  unfold Rename at h
  cases hsrc : readFile fs src with
  | none => simp [hsrc] at h
  | some content =>
    simp [hsrc] at h
    exact h.symm

theorem mem_fs_readFile (fs : FS) (p : Path) (h : p ∈ fs.map Prod.fst) :
    readFile fs p ≠ none := by
  induction fs with
  | nil => simp at h
  | cons x rest ih =>
    obtain ⟨r, c⟩ := x
    by_cases hr : r = p
    · simp [readFile, hr]
    · simp only [readFile, hr, if_false]
      apply ih
      simp only [List.map_cons, List.mem_cons] at h
      rcases h with h1 | h1
      · exact absurd h1.symm hr
      · exact h1

/-! ## Paths: lemmas -/

theorem splitSlash_cons (c : Char) (cs : List Char) :
    splitSlash (c :: cs) =
      if c = '/' then [] :: splitSlash cs
      else
        match splitSlash cs with
        | [] => [[c]]
        | x :: xs => (c :: x) :: xs := by
  rw [splitSlash]

theorem splitSlash_ne_nil (cs : List Char) : splitSlash cs ≠ [] := by
  cases cs with
  | nil => simp [splitSlash]
  | cons c rest =>
    rw [splitSlash_cons]
    by_cases h : c = '/'
    · simp [h]
    · simp only [h, if_false]
      cases splitSlash rest <;> simp

/-- Splitting at a slash: the pieces of both sides, one after the other. -/
theorem splitSlash_append (a b : List Char) :
    splitSlash (a ++ '/' :: b) = splitSlash a ++ splitSlash b := by
  induction a with
  | nil => simp [splitSlash_cons, splitSlash]
  | cons c rest ih =>
    simp only [List.cons_append]
    rw [splitSlash_cons, splitSlash_cons c rest, ih]
    by_cases h : c = '/'
    · simp only [h, if_true, List.cons_append]
    · simp only [h, if_false]
      cases hs : splitSlash rest with
      | nil => exact absurd hs (splitSlash_ne_nil rest)
      | cons x xs => simp

theorem splitSlash_of_no_slash (n : List Char) (h : '/' ∉ n) : splitSlash n = [n] := by
  induction n with
  | nil => rfl
  | cons c rest ih =>
    have hc : c ≠ '/' := fun e => h (by simp [e])
    have hr : '/' ∉ rest := fun e => h (by simp [e])
    rw [splitSlash_cons]
    simp only [hc, if_false, ih hr]

theorem cleanStep_plain (rooted : Bool) (stack : List (List Char)) (n : String)
    (h : plainName n) : cleanStep rooted stack n.data = stack ++ [n.data] := by
  unfold cleanStep
  obtain ⟨h1, _, h3, h4⟩ := h
  simp [h1, h3, h4]

theorem isRooted_append (a b : List Char) (h : a ≠ []) : isRooted (a ++ b) = isRooted a := by
  cases a with
  | nil => exact absurd rfl h
  | cons c rest => rfl

theorem isRooted_of_no_slash (n : List Char) (h : '/' ∉ n) : isRooted n = false := by
  cases n with
  | nil => rfl
  | cons c rest =>
    have hc : c ≠ '/' := fun e => h (by simp [e])
    simp [isRooted, hc]

/-- Joining a directory and a plain file name: the file of that name in the
directory's clean form. -/
theorem Join_plain (dir name : String) (h : plainName name) :
    Join dir name = { dir := cleanPath dir, base := name } := by
  unfold Join cleanPath
  by_cases hd : dir = ""
  · subst hd
    have hs := splitSlash_of_no_slash name.data h.2.1
    have hr := isRooted_of_no_slash name.data h.2.1
    have hc : cleanComps name.data = [name.data] := by
      simp [cleanComps, hs, cleanStep_plain _ _ name h]
    have he : cleanComps "".data = [] := by decide
    have hr2 : isRooted "".data = false := by decide
    simp only [if_true, hc, hr, he, hr2]
    simp [renderPath]
  · have hne : dir.data ≠ [] := fun e => hd (by cases dir; simp_all)
    simp only [hd, if_false]
    have hs := splitSlash_of_no_slash name.data h.2.1
    simp only [cleanComps, splitSlash_append, hs, List.foldl_append, List.foldl_cons,
      List.foldl_nil, isRooted_append _ _ hne, cleanStep_plain _ _ name h,
      List.getLast?_concat, List.dropLast_concat]

/-- The function `cleanPath` on rows of the table of Go's own test of
`filepath.Clean`: a clean path stays, a trailing or doubled slash and `.` go,
`..` takes the piece before it and is kept only at the start of a relative path. -/
theorem cleanPath_examples :
    cleanPath "" = "." ∧ cleanPath "abc/def" = "abc/def" ∧ cleanPath "/" = "/" ∧
    cleanPath "../../abc" = "../../abc" ∧ cleanPath "abc/def/" = "abc/def" ∧
    cleanPath "./" = "." ∧ cleanPath "/abc/" = "/abc" ∧
    cleanPath "abc//def//ghi" = "abc/def/ghi" ∧ cleanPath "/./abc/def" = "/abc/def" ∧
    cleanPath "abc/def/../ghi/../jkl" = "abc/jkl" ∧ cleanPath "abc/def/../.." = "." ∧
    cleanPath "/abc/def/../../.." = "/" ∧
    cleanPath "abc/def/../../../ghi/jkl/../../../mno" = "../../mno" ∧
    cleanPath "/../abc" = "/abc" ∧ cleanPath "abc/../../././../def" = "../../def" := by
  decide

/-- Joins with other than a plain name: the result is cleaned as a whole. -/
theorem Join_examples :
    Join "out/archive/" "f.tsv" = { dir := "out/archive", base := "f.tsv" } ∧
    Join "" "f.tsv" = { dir := ".", base := "f.tsv" } ∧
    Join "/" "f.tsv" = { dir := "/", base := "f.tsv" } ∧
    Join "out" "errors/x" = { dir := "out/errors", base := "x" } ∧
    Join "a" ".." = { dir := ".", base := "." } ∧
    subDir "out/" "archive" = "out/archive" ∧ subDir "" "archive" = "archive" ∧
    subDir "./out/../out" "archive" = "out/archive" := by
  decide

/-- A name that matches `*.tsv` is a plain file name. -/
theorem matchesTsv_plain (name : String) (h : matchesTsv name = true) : plainName name := by
  unfold matchesTsv at h
  simp only [Bool.and_eq_true, Bool.not_eq_true', List.isSuffixOf_iff_suffix] at h
  obtain ⟨⟨t, ht⟩, hs⟩ := h
  have hlen : 4 ≤ name.data.length := by
    have h4 : ".tsv".data.length = 4 := by decide
    rw [← ht, List.length_append, h4]
    omega
  refine ⟨?_, ?_, ?_, ?_⟩
  · intro e; rw [e] at hlen; simp at hlen
  · intro e
    have : name.data.contains '/' = true := by simpa using e
    rw [this] at hs
    exact absurd hs (by simp)
  · intro e; rw [e] at hlen; simp at hlen
  · intro e; rw [e] at hlen; simp at hlen

theorem mem_globDir (fs : FS) (dir : String) (p : Path) (h : p ∈ globDir fs dir) :
    p.dir = cleanPath dir ∧ matchesTsv p.base = true ∧ readFile fs p ≠ none := by
  unfold globDir at h
  simp only [List.mem_filter] at h
  obtain ⟨he, hd⟩ := h
  have hd2 := of_decide_eq_true hd
  exact ⟨hd2.1, hd2.2, mem_fs_readFile fs p he⟩

/-- Every path `globDir` lists is the join of the directory and a matching name. -/
theorem globDir_eq_Join (fs : FS) (dir : String) (p : Path) (h : p ∈ globDir fs dir) :
    p = Join dir (Base p) := by
  obtain ⟨hd, hm, _⟩ := mem_globDir fs dir p h
  rw [Join_plain dir (Base p) (matchesTsv_plain _ hm), ← hd]
  rfl

/-- What `Glob` lists: existing files with a matching name; they lie in the
input directory when its name holds no meta character. -/
theorem mem_Glob (metaDirs : List String) (fs : FS) (dir : String) (p : Path)
    (h : p ∈ Glob metaDirs fs dir) :
    matchesTsv p.base = true ∧ readFile fs p ≠ none ∧
      (hasMeta (cleanPath dir) = false → p.dir = cleanPath dir) := by
  unfold Glob at h
  by_cases hm : hasMeta (cleanPath dir) = true
  · simp only [hm, if_true, List.mem_flatten, List.mem_map] at h
    obtain ⟨l, ⟨d, _, hl⟩, hp⟩ := h
    rw [← hl] at hp
    obtain ⟨_, h2, h3⟩ := mem_globDir fs d p hp
    exact ⟨h2, h3, fun e => by rw [hm] at e; exact absurd e (by simp)⟩
  · simp only [hm, if_false] at h
    obtain ⟨h1, h2, h3⟩ := mem_globDir fs dir p h
    exact ⟨h2, h3, fun _ => h1⟩

/-! ## Watcher: lemmas -/

theorem filter_length_pos_iff_any (l : List ProcessedFile) (fileName : String) :
    decide ((l.filter (fun f => f.FileName = fileName)).length > 0) =
      l.any (fun f => f.FileName = fileName) := by
  induction l with
  | nil => simp
  | cons x rest ih =>
    by_cases hx : x.FileName = fileName
    · simp [List.filter, hx]
    · simp [List.filter, hx] at ih ⊢
      exact ih

theorem isFileProcessed_none (db : MongoDB) (fileName : String) :
    IsFileProcessed db none fileName = Except.ok (hasLedgerEntry db fileName) := by
  unfold IsFileProcessed hasLedgerEntry
  simp only []
  rw [filter_length_pos_iff_any]

theorem isFileProcessed_some (db : MongoDB) (e fileName : String) :
    IsFileProcessed db (some e) fileName = Except.error e := rfl

/-- The scan loop leaves everything but the queue as it is, and appends to the
queue the jobs of the eligible files for which it has room. -/
theorem scanLoop_eq (env : ScanEnv) (paths : List Path) :
    ∀ w : World, scanLoop env paths w =
      { w with jobQueue := Chan.mk w.jobQueue.cap (w.jobQueue.buf ++
          ((eligibleFiles env w.db paths).map jobOf).take
            (w.jobQueue.cap - w.jobQueue.buf.length)) } := by
  induction paths with
  | nil => intro w; simp [scanLoop, eligibleFiles]
  | cons p rest ih =>
    intro w
    cases hc : env.checkErr (Base p) with
    | some e =>
      have h1 : scanLoop env (p :: rest) w = scanLoop env rest w := by
        simp [scanLoop, hc, isFileProcessed_some]
      rw [h1, ih w]
      simp [eligibleFiles, List.filter, hc]
    | none =>
      cases hl : hasLedgerEntry w.db (Base p) with
      | true =>
        have h1 : scanLoop env (p :: rest) w = scanLoop env rest w := by
          simp [scanLoop, hc, isFileProcessed_none, hl]
        rw [h1, ih w]
        simp [eligibleFiles, List.filter, hc, hl]
      | false =>
        have h1 : scanLoop env (p :: rest) w = scanLoop env rest
            { w with jobQueue := trySend w.jobQueue (jobOf p) } := by
          simp [scanLoop, hc, isFileProcessed_none, hl, jobOf]
        rw [h1, ih]
        by_cases hroom : w.jobQueue.buf.length < w.jobQueue.cap
        · have h2 : w.jobQueue.cap - w.jobQueue.buf.length =
              (w.jobQueue.cap - (w.jobQueue.buf.length + 1)) + 1 := by omega
          simp only [trySend, hroom, if_true, eligibleFiles, List.filter, hc, hl,
            Option.isNone_none, Bool.not_false, Bool.and_self, List.map_cons,
            List.length_append, List.length_singleton]
          rw [h2, List.take_succ_cons]
          simp
        · have h0 : w.jobQueue.cap - w.jobQueue.buf.length = 0 := by omega
          simp only [trySend, hroom, if_false, h0, List.take_zero]

/-! ## Worker: what each step of `processJob` touches -/

theorem SameCore.refl (w : World) : SameCore w w :=
  { fs := rfl, persisted := rfl, jobQueue := rfl, crashed := rfl, deviceData := rfl }

theorem SameCore.trans {a b c : World} (h1 : SameCore a b) (h2 : SameCore b c) : SameCore a c :=
  { fs := h2.fs.trans h1.fs, persisted := h2.persisted.trans h1.persisted,
    jobQueue := h2.jobQueue.trans h1.jobQueue, crashed := h2.crashed.trans h1.crashed,
    deviceData := h2.deviceData.trans h1.deviceData }

theorem saveProcessingErrorLogged_core (env : JobEnv) (w : World) (pe : ProcessingError) :
    SameCore w (saveProcessingErrorLogged env w pe) ∧
    (saveProcessingErrorLogged env w pe).db.processedFiles = w.db.processedFiles ∧
    (saveProcessingErrorLogged env w pe).reports = w.reports ∧
    (saveProcessingErrorLogged env w pe).attempts = w.attempts ∧
    (saveProcessingErrorLogged env w pe).db.processingErrs =
      (if (env.saveProcessingErrorErr pe.UnitGUID).isNone then w.db.processingErrs ++ [pe]
       else w.db.processingErrs) := by
  unfold saveProcessingErrorLogged SaveProcessingError
  cases env.saveProcessingErrorErr pe.UnitGUID <;>
    exact ⟨⟨rfl, rfl, rfl, rfl, rfl⟩, rfl, rfl, rfl, rfl⟩

theorem saveProcessedFileLogged_core (env : JobEnv) (w : World) (pf : ProcessedFile) :
    SameCore w (saveProcessedFileLogged env w pf) ∧
    (saveProcessedFileLogged env w pf).db.processingErrs = w.db.processingErrs ∧
    (saveProcessedFileLogged env w pf).reports = w.reports ∧
    (saveProcessedFileLogged env w pf).attempts = w.attempts ∧
    (saveProcessedFileLogged env w pf).db.processedFiles =
      (if env.saveProcessedFileErr.isNone && !hasLedgerEntry w.db pf.FileName
       then w.db.processedFiles ++ [pf] else w.db.processedFiles) := by
  unfold saveProcessedFileLogged SaveProcessedFile hasLedgerEntry
  cases env.saveProcessedFileErr with
  | some e => exact ⟨⟨rfl, rfl, rfl, rfl, rfl⟩, rfl, rfl, rfl, rfl⟩
  | none =>
    cases h : (w.db.processedFiles.any fun f => decide (f.FileName = pf.FileName)) with
    | true => simp [h]; exact ⟨rfl, rfl, rfl, rfl, rfl⟩
    | false => simp [h]; exact ⟨rfl, rfl, rfl, rfl, rfl⟩

theorem fetch_first_page (db : MongoDB) (fault : Option String) (unitGUID : String) :
    GetDeviceDataByUnitGUID db fault unitGUID 1 1000 ≠ Res.panic := by
  unfold GetDeviceDataByUnitGUID
  cases fault with
  | some e => simp
  | none =>
    have h : wrapInt64 0 = 0 := by decide
    simp [h]

/-- The report loop never panics, touches neither the file system, the queue,
the device records nor the ledger, and runs once for each identifier given. -/
theorem reportLoop_frame (env : JobEnv) (job : Job) (guids : List String) :
    ∀ w : World,
      (reportLoop env job guids w).2 = false ∧
      SameCore w (reportLoop env job guids w).1 ∧
      (reportLoop env job guids w).1.db.processedFiles = w.db.processedFiles ∧
      (reportLoop env job guids w).1.attempts = w.attempts ++ guids := by
  induction guids with
  | nil => intro w; exact ⟨rfl, SameCore.refl w, rfl, by simp [reportLoop]⟩
  | cons g rest ih =>
    intro w
    unfold reportLoop
    simp only []
    cases hf : GetDeviceDataByUnitGUID w.db (env.fetchErr g) g 1 1000 with
    | panic => exact absurd hf (fetch_first_page _ _ _)
    | err e =>
      simp only []
      obtain ⟨h1, h2, h3, h4⟩ := ih { w with attempts := w.attempts ++ [g] }
      exact ⟨h1, ⟨h2.fs, h2.persisted, h2.jobQueue, h2.crashed, h2.deviceData⟩, h3,
        by rw [h4]; simp⟩
    | ok paginated =>
      simp only []
      cases hr : env.renderErr g with
      | some e =>
        simp only []
        obtain ⟨c, p1, _, p3, _⟩ := saveProcessingErrorLogged_core env
          { w with attempts := w.attempts ++ [g] }
          { FileName := job.FileName, UnitGUID := g,
            ErrorMsg := "Report generation error: " ++ e, CreatedAt := env.clock 2 }
        obtain ⟨h1, h2, h3, h4⟩ := ih (saveProcessingErrorLogged env
          { w with attempts := w.attempts ++ [g] }
          { FileName := job.FileName, UnitGUID := g,
            ErrorMsg := "Report generation error: " ++ e, CreatedAt := env.clock 2 })
        refine ⟨h1, ?_, ?_, ?_⟩
        · have := SameCore.trans c h2
          exact ⟨this.fs, this.persisted, this.jobQueue, this.crashed, this.deviceData⟩
        · rw [h3, p1]
        · rw [h4, p3]; simp
      | none =>
        simp only []
        obtain ⟨h1, h2, h3, h4⟩ := ih
          { w with attempts := w.attempts ++ [g],
                   reports := w.reports ++ [(g, paginated.Data)] }
        exact ⟨h1, ⟨h2.fs, h2.persisted, h2.jobQueue, h2.crashed, h2.deviceData⟩, h3,
          by rw [h4]; simp⟩

theorem moveFileToError_cases (cfg : WatcherConfig) (env : JobEnv) (w : World)
    (filePath : Path) (fileName : String) :
    moveFileToError cfg env w filePath fileName = w ∨
    ∃ fs2, Rename w.fs filePath (Join (subDir cfg.OutputDir "errors") fileName) = some fs2 ∧
      moveFileToError cfg env w filePath fileName = { w with fs := fs2 } := by
  unfold moveFileToError
  cases env.mkdirErr with
  | some e => exact Or.inl rfl
  | none =>
    cases env.renameErr with
    | some e => exact Or.inl rfl
    | none =>
      cases h : Rename w.fs filePath (Join (subDir cfg.OutputDir "errors") fileName) with
      | none => simp [h]
      | some fs2 => exact Or.inr ⟨fs2, rfl, by simp [h]⟩

theorem moveFileToError_ok (cfg : WatcherConfig) (env : JobEnv) (w : World)
    (filePath : Path) (fileName : String) (fs2 : FS)
    (hm : env.mkdirErr = none) (hr : env.renameErr = none)
    (h : Rename w.fs filePath (Join (subDir cfg.OutputDir "errors") fileName) = some fs2) :
    moveFileToError cfg env w filePath fileName = { w with fs := fs2 } := by
  unfold moveFileToError
  simp [hm, hr, h]

theorem cleanupFile_cases (cfg : WatcherConfig) (env : JobEnv) (w : World) (filePath : Path) :
    cleanupFile cfg env w filePath = w ∨
    ∃ fs2, Rename w.fs filePath (Join (subDir cfg.OutputDir "archive") (Base filePath)) =
        some fs2 ∧
      cleanupFile cfg env w filePath = { w with fs := fs2 } := by
  unfold cleanupFile
  cases env.mkdirErr with
  | some e => exact Or.inl rfl
  | none =>
    cases env.renameErr with
    | some e => exact Or.inl rfl
    | none =>
      cases h : Rename w.fs filePath (Join (subDir cfg.OutputDir "archive") (Base filePath)) with
      | none => simp [h]
      | some fs2 => exact Or.inr ⟨fs2, rfl, by simp [h]⟩

theorem cleanupFile_ok (cfg : WatcherConfig) (env : JobEnv) (w : World) (filePath : Path)
    (fs2 : FS) (hm : env.mkdirErr = none) (hr : env.renameErr = none)
    (h : Rename w.fs filePath (Join (subDir cfg.OutputDir "archive") (Base filePath)) =
      some fs2) :
    cleanupFile cfg env w filePath = { w with fs := fs2 } := by
  unfold cleanupFile
  simp [hm, hr, h]

theorem parse_ok_file (clock : Nat → Nat) (fs : FS) (p : Path) (fileName : String)
    (records : List DeviceData) (h : Parse clock fs p fileName = Res.ok records) :
    ∃ content, readFile fs p = some content := by
  cases hr : readFile fs p with
  | none => simp [Parse, hr] at h
  | some c => exact ⟨c, rfl⟩

theorem saveDeviceData_ok (db db1 : MongoDB) (fault : Option String) (data : List DeviceData)
    (h : SaveDeviceData db fault data = Except.ok db1) :
    db1.deviceData = db.deviceData ++ data ∧ db1.processedFiles = db.processedFiles ∧
      db1.processingErrs = db.processingErrs := by
  unfold SaveDeviceData at h
  by_cases h0 : data.length = 0
  · have : data = [] := List.length_eq_zero.mp h0
    subst this
    simp at h
    subst h
    simp
  · simp only [h0, if_false] at h
    cases fault with
    | some e => simp at h
    | none =>
      simp at h
      subst h
      simp

/-! ## Worker: `processJob` along each of its paths -/

theorem processJob_parse_panic (cfg : WatcherConfig) (env : JobEnv) (w : World) (job : Job)
    (h : Parse env.clock w.fs job.FilePath job.FileName = Res.panic) :
    processJob cfg env w job = { w with crashed := true } := by
  unfold processJob
  simp only [h]

theorem processJob_parse_err (cfg : WatcherConfig) (env : JobEnv) (w : World) (job : Job)
    (msg : String) (h : Parse env.clock w.fs job.FilePath job.FileName = Res.err msg) :
    processJob cfg env w job =
      moveFileToError cfg env
        (saveProcessedFileLogged env
          (saveProcessingErrorLogged env w
            { FileName := job.FileName, ErrorMsg := msg, CreatedAt := env.clock 1 })
          { FileName := job.FileName, FilePath := job.FilePath, ProcessedAt := env.clock 0,
            Status := "error", ErrorMsg := msg })
        job.FilePath job.FileName := by
  unfold processJob
  simp only [h]

theorem processJob_save_err (cfg : WatcherConfig) (env : JobEnv) (w : World) (job : Job)
    (records : List DeviceData) (e : String)
    (h : Parse env.clock w.fs job.FilePath job.FileName = Res.ok records)
    (hs : SaveDeviceData w.db env.saveDeviceDataErr records = Except.error e) :
    processJob cfg env w job =
      saveProcessedFileLogged env w
        { FileName := job.FileName, FilePath := job.FilePath, ProcessedAt := env.clock 0,
          Status := "error", ErrorMsg := "DB error: " ++ e } := by
  unfold processJob
  simp only [h, hs]

theorem processJob_saved (cfg : WatcherConfig) (env : JobEnv) (w : World) (job : Job)
    (records : List DeviceData) (db1 : MongoDB)
    (h : Parse env.clock w.fs job.FilePath job.FileName = Res.ok records)
    (hs : SaveDeviceData w.db env.saveDeviceDataErr records = Except.ok db1) :
    processJob cfg env w job =
      cleanupFile cfg env
        (saveProcessedFileLogged env
          (reportLoop env job (getUniqueUnitGUIDs env.mapOrder records)
            { w with db := db1, persisted := w.persisted ++ [job.FileName] }).1
          { FileName := job.FileName, FilePath := job.FilePath, ProcessedAt := env.clock 0,
            Status := "success" })
        job.FilePath := by
  have hf := (reportLoop_frame env job (getUniqueUnitGUIDs env.mapOrder records)
    { w with db := db1, persisted := w.persisted ++ [job.FileName] }).1
  unfold processJob
  simp only [h, hs]
  generalize reportLoop env job (getUniqueUnitGUIDs env.mapOrder records)
    { w with db := db1, persisted := w.persisted ++ [job.FileName] } = r at hf ⊢
  obtain ⟨r1, r2⟩ := r
  simp only at hf
  subst hf
  rfl

/-! ## The ledger only grows -/

theorem hasLedgerEntry_append (db db2 : MongoDB) (extra : List ProcessedFile) (f : String)
    (h : db2.processedFiles = db.processedFiles ++ extra)
    (hf : hasLedgerEntry db f = true) : hasLedgerEntry db2 f = true := by
  unfold hasLedgerEntry at hf ⊢
  rw [h, List.any_append, hf]
  rfl

theorem processJob_ledger_grows (cfg : WatcherConfig) (env : JobEnv) (w : World) (job : Job) :
    ∃ extra, (processJob cfg env w job).db.processedFiles = w.db.processedFiles ++ extra := by
  cases hp : Parse env.clock w.fs job.FilePath job.FileName with
  | panic =>
    rw [processJob_parse_panic cfg env w job hp]
    exact ⟨[], by simp⟩
  | err msg =>
    rw [processJob_parse_err cfg env w job msg hp]
    obtain ⟨_, h1, _, _, _⟩ := saveProcessingErrorLogged_core env w
      { FileName := job.FileName, ErrorMsg := msg, CreatedAt := env.clock 1 }
    obtain ⟨_, _, _, _, h2⟩ := saveProcessedFileLogged_core env
      (saveProcessingErrorLogged env w
        { FileName := job.FileName, ErrorMsg := msg, CreatedAt := env.clock 1 })
      { FileName := job.FileName, FilePath := job.FilePath, ProcessedAt := env.clock 0,
        Status := "error", ErrorMsg := msg }
    rw [h1] at h2
    rcases moveFileToError_cases cfg env
      (saveProcessedFileLogged env
        (saveProcessingErrorLogged env w
          { FileName := job.FileName, ErrorMsg := msg, CreatedAt := env.clock 1 })
        { FileName := job.FileName, FilePath := job.FilePath, ProcessedAt := env.clock 0,
          Status := "error", ErrorMsg := msg })
      job.FilePath job.FileName with hm | ⟨fs2, _, hm⟩
    all_goals
      rw [hm]
      try simp only []
      rw [h2]
      split_ifs
      · exact ⟨_, rfl⟩
      · exact ⟨[], by simp⟩
  | ok records =>
    cases hs : SaveDeviceData w.db env.saveDeviceDataErr records with
    | error e =>
      rw [processJob_save_err cfg env w job records e hp hs]
      obtain ⟨_, _, _, _, h2⟩ := saveProcessedFileLogged_core env w
        { FileName := job.FileName, FilePath := job.FilePath, ProcessedAt := env.clock 0,
          Status := "error", ErrorMsg := "DB error: " ++ e }
      rw [h2]
      split_ifs
      · exact ⟨_, rfl⟩
      · exact ⟨[], by simp⟩
    | ok db1 =>
      rw [processJob_saved cfg env w job records db1 hp hs]
      obtain ⟨_, _, h3, _⟩ := reportLoop_frame env job (getUniqueUnitGUIDs env.mapOrder records)
        { w with db := db1, persisted := w.persisted ++ [job.FileName] }
      obtain ⟨_, _, _, _, h2⟩ := saveProcessedFileLogged_core env
        (reportLoop env job (getUniqueUnitGUIDs env.mapOrder records)
          { w with db := db1, persisted := w.persisted ++ [job.FileName] }).1
        { FileName := job.FileName, FilePath := job.FilePath, ProcessedAt := env.clock 0,
          Status := "success" }
      rw [h3] at h2
      simp only [(saveDeviceData_ok w.db db1 _ records hs).2.1] at h2
      rcases cleanupFile_cases cfg env
        (saveProcessedFileLogged env
          (reportLoop env job (getUniqueUnitGUIDs env.mapOrder records)
            { w with db := db1, persisted := w.persisted ++ [job.FileName] }).1
          { FileName := job.FileName, FilePath := job.FilePath, ProcessedAt := env.clock 0,
            Status := "success" })
        job.FilePath with hm | ⟨fs2, _, hm⟩
      all_goals
        rw [hm]
        try simp only []
        rw [h2]
        split_ifs
        · exact ⟨_, rfl⟩
        · exact ⟨[], by simp⟩

theorem scanDirectory_db (cfg : WatcherConfig) (env : ScanEnv) (w : World) :
    (scanDirectory cfg env w).db = w.db ∧ (scanDirectory cfg env w).fs = w.fs ∧
    (scanDirectory cfg env w).persisted = w.persisted ∧
    (scanDirectory cfg env w).crashed = w.crashed ∧
    (scanDirectory cfg env w).jobQueue.cap = w.jobQueue.cap := by
  unfold scanDirectory
  cases env.globErr with
  | some e => exact ⟨rfl, rfl, rfl, rfl, rfl⟩
  | none =>
    simp only []
    rw [scanLoop_eq]
    exact ⟨rfl, rfl, rfl, rfl, rfl⟩

theorem step_ledger_grows (cfg : WatcherConfig) (w : World) (e : Event) (f : String)
    (hf : hasLedgerEntry w.db f = true) : hasLedgerEntry (step cfg w e).db f = true := by
  unfold step
  cases hc : w.crashed with
  | true => simpa using hf
  | false =>
    simp only [Bool.false_eq_true, if_false]
    cases e with
    | scan env =>
      simp only []
      rw [(scanDirectory_db cfg env w).1]
      exact hf
    | work env =>
      simp only [workerStep]
      cases hq : w.jobQueue.buf with
      | nil => exact hf
      | cons job rest =>
        simp only []
        obtain ⟨extra, he⟩ := processJob_ledger_grows cfg env
          { w with jobQueue := { w.jobQueue with buf := rest } } job
        exact hasLedgerEntry_append _ _ extra f he hf

theorem run_ledger_grows (cfg : WatcherConfig) (events : List Event) :
    ∀ (w : World) (f : String), hasLedgerEntry w.db f = true →
      hasLedgerEntry (run cfg w events).db f = true := by
  induction events with
  | nil => intro w f hf; exact hf
  | cons e rest ih =>
    intro w f hf
    exact ih (step cfg w e) f (step_ledger_grows cfg w e f hf)

/-- The jobs a scan appends: behind the old queue, each for a listed file whose
ledger check came back without an entry. -/
theorem scanDirectory_added (cfg : WatcherConfig) (env : ScanEnv) (w : World) :
    ∃ added : List Job,
      (scanDirectory cfg env w).jobQueue.buf = w.jobQueue.buf ++ added ∧
      ∀ j ∈ added, hasLedgerEntry w.db j.FileName = false ∧
        j.FilePath ∈ Glob env.metaDirs w.fs cfg.InputDir ∧ j.FileName = Base j.FilePath := by
  unfold scanDirectory
  cases env.globErr with
  | some e => exact ⟨[], by simp, by simp⟩
  | none =>
    simp only []
    rw [scanLoop_eq]
    refine ⟨_, rfl, ?_⟩
    intro j hj
    have hj2 := List.mem_of_mem_take hj
    simp only [List.mem_map, eligibleFiles, List.mem_filter, Bool.and_eq_true,
      Bool.not_eq_true'] at hj2
    obtain ⟨p, ⟨hp, _, hl⟩, rfl⟩ := hj2
    exact ⟨hl, hp, rfl⟩

/-! ## Watcher: the properties C5 and C6 -/

/-- C5. A scan appends jobs behind the queue it found, and each appended job is
for a listed file that has no ledger entry; so no job is enqueued for a file
name that has a ledger entry of any status. A ledger entry, once written, is
there after every later sequence of scans and job runs, so no later scan
enqueues a job for that file name. -/
theorem C5_scan_skips_files_with_ledger_entry (cfg : WatcherConfig) (env : ScanEnv)
    (w : World) :
    (∃ added : List Job,
      (scanDirectory cfg env w).jobQueue.buf = w.jobQueue.buf ++ added ∧
      ∀ j ∈ added, hasLedgerEntry w.db j.FileName = false ∧
        j.FilePath ∈ Glob env.metaDirs w.fs cfg.InputDir ∧ j.FileName = Base j.FilePath) ∧
    (∀ f : String, hasLedgerEntry w.db f = true →
      ∀ (events : List Event) (env2 : ScanEnv),
        hasLedgerEntry (run cfg w events).db f = true ∧
        ∃ added : List Job,
          (scanDirectory cfg env2 (run cfg w events)).jobQueue.buf =
            (run cfg w events).jobQueue.buf ++ added ∧
          ∀ j ∈ added, j.FileName ≠ f) := by
  refine ⟨scanDirectory_added cfg env w, ?_⟩
  intro f hf events env2
  have hl := run_ledger_grows cfg events w f hf
  refine ⟨hl, ?_⟩
  obtain ⟨added, h1, h2⟩ := scanDirectory_added cfg env2 (run cfg w events)
  refine ⟨added, h1, ?_⟩
  intro j hj heq
  have := (h2 j hj).1
  rw [heq, hl] at this
  exact absurd this (by simp)

/-- C5, witness: after `in/f.tsv` was processed, a scan, a job run and another
scan later the ledger still has its entry and the queue is empty. -/
theorem C5_scan_skips_files_with_ledger_entry_witness :
    hasLedgerEntry (run demoCfg demoWorld [Event.scan {}, Event.work {}]).db "f.tsv" = true ∧
    hasLedgerEntry
      (run demoCfg (run demoCfg demoWorld [Event.scan {}, Event.work {}])
        [Event.scan {}, Event.work {}]).db "f.tsv" = true :=
  ⟨by decide,
   ((C5_scan_skips_files_with_ledger_entry demoCfg {}
      (run demoCfg demoWorld [Event.scan {}, Event.work {}])).2 "f.tsv" (by decide)
      [Event.scan {}, Event.work {}] {}).1⟩

/-- C6. When a scan discovers `k` eligible files (listed files whose ledger
check came back without an entry) while the queue holds `q` jobs of capacity
`c`, the scan appends the jobs of the first `min k (c - q)` of them, in
discovery order, behind the `q` jobs, which stay as they were; capacity, store
(so the ledger) and file system are unchanged, so every discovered file,
enqueued or skipped, is still listed and still without a ledger entry. A later
scan enqueues such a file when its check comes back and the queue has room for
the eligible files of that scan. -/
theorem C6_scan_backpressure (cfg : WatcherConfig) (env : ScanEnv) (w : World) :
    (scanDirectory cfg env w).jobQueue.buf =
      w.jobQueue.buf ++
        ((discovered cfg env w).take
          (min (discovered cfg env w).length
            (w.jobQueue.cap - w.jobQueue.buf.length))).map jobOf ∧
    (scanDirectory cfg env w).jobQueue.buf.length =
      w.jobQueue.buf.length +
        min (discovered cfg env w).length (w.jobQueue.cap - w.jobQueue.buf.length) ∧
    (scanDirectory cfg env w).jobQueue.cap = w.jobQueue.cap ∧
    (scanDirectory cfg env w).db = w.db ∧
    (scanDirectory cfg env w).fs = w.fs ∧
    (∀ p ∈ discovered cfg env w,
      p ∈ Glob env.metaDirs (scanDirectory cfg env w).fs cfg.InputDir ∧
      hasLedgerEntry (scanDirectory cfg env w).db (Base p) = false) ∧
    (∀ (env2 : ScanEnv) (w2 : World) (p : Path), env2.globErr = none →
      p ∈ Glob env2.metaDirs w2.fs cfg.InputDir → hasLedgerEntry w2.db (Base p) = false →
      env2.checkErr (Base p) = none →
      (discovered cfg env2 w2).length ≤ w2.jobQueue.cap - w2.jobQueue.buf.length →
      jobOf p ∈ (scanDirectory cfg env2 w2).jobQueue.buf) := by
  have hbuf : ∀ (e : ScanEnv) (v : World),
      (scanDirectory cfg e v).jobQueue.buf =
        v.jobQueue.buf ++ ((discovered cfg e v).map jobOf).take
          (v.jobQueue.cap - v.jobQueue.buf.length) := by
    intro e v
    unfold scanDirectory discovered
    cases e.globErr with
    | some x => simp
    | none =>
      simp only []
      rw [scanLoop_eq]
  have htake : ((discovered cfg env w).map jobOf).take
        (w.jobQueue.cap - w.jobQueue.buf.length) =
      ((discovered cfg env w).take
        (min (discovered cfg env w).length
          (w.jobQueue.cap - w.jobQueue.buf.length))).map jobOf := by
    rw [List.map_take]
    by_cases hk : (discovered cfg env w).length ≤ w.jobQueue.cap - w.jobQueue.buf.length
    · rw [Nat.min_eq_left hk, List.take_of_length_le (by simpa using hk),
        List.take_of_length_le (by simp)]
    · rw [Nat.min_eq_right (by omega)]
  obtain ⟨hdb, hfs, _, _, hcap⟩ := scanDirectory_db cfg env w
  refine ⟨?_, ?_, hcap, hdb, hfs, ?_, ?_⟩
  · rw [hbuf env w, htake]
  · rw [hbuf env w, htake]
    simp only [List.length_append, List.length_map, List.length_take]
    omega
  · intro p hp
    rw [hdb, hfs]
    unfold discovered at hp
    cases hg : env.globErr with
    | some x => simp [hg] at hp
    | none =>
      simp only [hg, eligibleFiles, List.mem_filter, Bool.and_eq_true,
        Bool.not_eq_true'] at hp
      exact ⟨hp.1, hp.2.2⟩
  · intro env2 w2 p hg hp hl hc hroom
    rw [hbuf env2 w2, List.take_of_length_le (by simpa using hroom)]
    apply List.mem_append_right
    apply List.mem_map_of_mem
    simp [discovered, hg, eligibleFiles, List.mem_filter, hp, hl, hc]

/-- C6, witness: a scan of the fresh pool, then a second scan of the result. -/
theorem C6_scan_backpressure_witness :
    jobOf (Join "in" "f.tsv") ∈
      (scanDirectory demoCfg {} (scanDirectory demoCfg {} demoWorld)).jobQueue.buf :=
  (C6_scan_backpressure demoCfg {} demoWorld).2.2.2.2.2.2 {}
    (scanDirectory demoCfg {} demoWorld) (Join "in" "f.tsv") rfl (by decide) (by decide) rfl
    (by decide)

/-! ## Distinct device identifiers: C10 -/

theorem guidMapKeys_nodup (records : List DeviceData) :
    ∀ keys : List String, keys.Nodup → (guidMapKeys records keys).Nodup := by
  induction records with
  | nil => intro keys h; exact h
  | cons r rest ih =>
    intro keys h
    unfold guidMapKeys
    by_cases hm : r.UnitGUID ∈ keys
    · simp only [hm, if_true]
      exact ih keys h
    · simp only [hm, if_false]
      apply ih
      rw [List.nodup_append]
      refine ⟨h, by simp, ?_⟩
      intro a ha hb
      simp at hb
      subst hb
      exact hm ha

theorem mem_guidMapKeys (records : List DeviceData) :
    ∀ (keys : List String) (g : String),
      g ∈ guidMapKeys records keys ↔ g ∈ keys ∨ ∃ r ∈ records, r.UnitGUID = g := by
  induction records with
  | nil => intro keys g; simp [guidMapKeys]
  | cons r rest ih =>
    intro keys g
    unfold guidMapKeys
    by_cases hm : r.UnitGUID ∈ keys
    · simp only [hm, if_true]
      rw [ih]
      constructor
      · rintro (h | ⟨x, hx, hg⟩)
        · exact Or.inl h
        · exact Or.inr ⟨x, by simp [hx], hg⟩
      · rintro (h | ⟨x, hx, hg⟩)
        · exact Or.inl h
        · rcases List.mem_cons.mp hx with h1 | h1
          · subst h1
            rw [← hg]
            exact Or.inl hm
          · exact Or.inr ⟨x, h1, hg⟩
    · simp only [hm, if_false]
      rw [ih]
      constructor
      · rintro (h | ⟨x, hx, hg⟩)
        · rcases List.mem_append.mp h with h1 | h1
          · exact Or.inl h1
          · simp at h1
            exact Or.inr ⟨r, by simp, h1.symm⟩
        · exact Or.inr ⟨x, by simp [hx], hg⟩
      · rintro (h | ⟨x, hx, hg⟩)
        · exact Or.inl (List.mem_append_left _ h)
        · rcases List.mem_cons.mp hx with h1 | h1
          · subst h1
            exact Or.inl (by simp [hg])
          · exact Or.inr ⟨x, h1, hg⟩

theorem getUniqueUnitGUIDs_nodup (order : MapOrder) (records : List DeviceData) :
    (getUniqueUnitGUIDs order records).Nodup :=
  (order.perm _).nodup_iff.mpr (guidMapKeys_nodup records [] List.nodup_nil)

theorem mem_getUniqueUnitGUIDs (order : MapOrder) (records : List DeviceData) (g : String) :
    g ∈ getUniqueUnitGUIDs order records ↔ ∃ r ∈ records, r.UnitGUID = g := by
  unfold getUniqueUnitGUIDs
  rw [(order.perm _).mem_iff, mem_guidMapKeys]
  simp

theorem fetch_first_page_ok (db : MongoDB) (unitGUID : String) :
    ∃ r, GetDeviceDataByUnitGUID db none unitGUID 1 1000 = Res.ok r := by
  unfold GetDeviceDataByUnitGUID
  have h : wrapInt64 0 = 0 := by decide
  simp [h]

/-- The report loop writes a report for exactly the identifiers whose fetch and
rendering both succeed, in the order given, whatever happens to the others. -/
theorem reportLoop_reports (env : JobEnv) (job : Job) (guids : List String) :
    ∀ w : World,
      (reportLoop env job guids w).1.reports.map Prod.fst =
        w.reports.map Prod.fst ++
          guids.filter (fun g => (env.fetchErr g).isNone && (env.renderErr g).isNone) := by
  induction guids with
  | nil => intro w; simp [reportLoop]
  | cons g rest ih =>
    intro w
    unfold reportLoop
    simp only []
    cases hfe : env.fetchErr g with
    | some e =>
      have : GetDeviceDataByUnitGUID w.db (some e) g 1 1000 = Res.err e := rfl
      simp only [this]
      rw [ih]
      simp [List.filter, hfe]
    | none =>
      obtain ⟨r, hr⟩ := fetch_first_page_ok w.db g
      simp only [hr]
      cases hre : env.renderErr g with
      | some e =>
        simp only []
        rw [ih]
        obtain ⟨_, _, p2, _, _⟩ := saveProcessingErrorLogged_core env
          { w with attempts := w.attempts ++ [g] }
          { FileName := job.FileName, UnitGUID := g,
            ErrorMsg := "Report generation error: " ++ e, CreatedAt := env.clock 2 }
        rw [p2]
        simp [List.filter, hfe, hre]
      | none =>
        simp only []
        rw [ih]
        simp [List.filter, hfe, hre]

theorem processJob_attempts (cfg : WatcherConfig) (env : JobEnv) (w : World) (job : Job)
    (records : List DeviceData) (db1 : MongoDB)
    (h : Parse env.clock w.fs job.FilePath job.FileName = Res.ok records)
    (hs : SaveDeviceData w.db env.saveDeviceDataErr records = Except.ok db1) :
    (processJob cfg env w job).attempts =
      w.attempts ++ getUniqueUnitGUIDs env.mapOrder records := by
  rw [processJob_saved cfg env w job records db1 h hs]
  obtain ⟨_, _, _, h4⟩ := reportLoop_frame env job (getUniqueUnitGUIDs env.mapOrder records)
    { w with db := db1, persisted := w.persisted ++ [job.FileName] }
  obtain ⟨_, _, _, h5, _⟩ := saveProcessedFileLogged_core env
    (reportLoop env job (getUniqueUnitGUIDs env.mapOrder records)
      { w with db := db1, persisted := w.persisted ++ [job.FileName] }).1
    { FileName := job.FileName, FilePath := job.FilePath, ProcessedAt := env.clock 0,
      Status := "success" }
  rcases cleanupFile_cases cfg env
    (saveProcessedFileLogged env
      (reportLoop env job (getUniqueUnitGUIDs env.mapOrder records)
        { w with db := db1, persisted := w.persisted ++ [job.FileName] }).1
      { FileName := job.FileName, FilePath := job.FilePath, ProcessedAt := env.clock 0,
        Status := "success" })
    job.FilePath with hm | ⟨fs2, _, hm⟩
  all_goals
    rw [hm]
    try simp only []
    rw [h5, h4]

/-- C10. For every batch and every map iteration order, `getUniqueUnitGUIDs`
returns a list without duplicates whose members are exactly the device
identifiers of the records (each occurs once; nothing for an empty batch). The
report loop makes one attempt per identifier of that list, whatever the
outcome of any fetch or rendering, and writes a report for exactly those
identifiers whose own fetch and rendering succeed; `processJob` makes these
attempts once the batch was parsed and persisted. -/
theorem C10_unique_guids_one_attempt_each (order : MapOrder) (records : List DeviceData) :
    (getUniqueUnitGUIDs order records).Nodup ∧
    (∀ g : String, g ∈ getUniqueUnitGUIDs order records ↔ ∃ r ∈ records, r.UnitGUID = g) ∧
    (∀ r ∈ records, (getUniqueUnitGUIDs order records).count r.UnitGUID = 1) ∧
    getUniqueUnitGUIDs order [] = [] ∧
    (∀ (env : JobEnv) (job : Job) (w : World),
      (reportLoop env job (getUniqueUnitGUIDs order records) w).1.attempts =
        w.attempts ++ getUniqueUnitGUIDs order records ∧
      (reportLoop env job (getUniqueUnitGUIDs order records) w).2 = false ∧
      (reportLoop env job (getUniqueUnitGUIDs order records) w).1.reports.map Prod.fst =
        w.reports.map Prod.fst ++
          (getUniqueUnitGUIDs order records).filter
            (fun g => (env.fetchErr g).isNone && (env.renderErr g).isNone)) ∧
    (∀ (cfg : WatcherConfig) (env : JobEnv) (w : World) (job : Job) (db1 : MongoDB),
      env.mapOrder = order →
      Parse env.clock w.fs job.FilePath job.FileName = Res.ok records →
      SaveDeviceData w.db env.saveDeviceDataErr records = Except.ok db1 →
      (processJob cfg env w job).attempts =
        w.attempts ++ getUniqueUnitGUIDs order records) := by
  refine ⟨getUniqueUnitGUIDs_nodup order records, mem_getUniqueUnitGUIDs order records,
    ?_, ?_, ?_, ?_⟩
  · intro r hr
    exact List.count_eq_one_of_mem (getUniqueUnitGUIDs_nodup order records)
      ((mem_getUniqueUnitGUIDs order records r.UnitGUID).mpr ⟨r, hr, rfl⟩)
  · exact List.Perm.eq_nil (order.perm [])
  · intro env job w
    obtain ⟨h1, _, _, h4⟩ := reportLoop_frame env job (getUniqueUnitGUIDs order records) w
    exact ⟨h4, h1, reportLoop_reports env job _ w⟩
  · intro cfg env w job db1 ho hp hs
    rw [← ho]
    exact processJob_attempts cfg env w job records db1 hp hs

/-! ## Worker: the failure paths C7 and C8 -/

/-- C7, refuted as stated. A file enqueued by two scans before its first job
ran: the first job archives it, so the parse step of the second job returns an
error (the file cannot be opened). That job writes no ledger entry with status
error (the insert hits the unique index: the ledger keeps the one success
entry) and relocates nothing to `out/errors/f.tsv` (there is no file to move). -/
theorem C7_counterexample :
    afterFirstOfTwoJobs.jobQueue.buf = [demoJob] ∧
    Parse (fun _ => 0) (dequeued afterFirstOfTwoJobs).fs demoJob.FilePath demoJob.FileName =
      Res.err "failed to open file: open in/f.tsv: no such file or directory" ∧
    (processJob demoCfg {} (dequeued afterFirstOfTwoJobs) demoJob).db.processedFiles.map
      (fun f => f.Status) = ["success"] ∧
    readFile (processJob demoCfg {} (dequeued afterFirstOfTwoJobs) demoJob).fs
      (Join "out/errors" "f.tsv") = none := by
  decide

/-- C7 (amended). When the parse step of a job returns an error, `processJob`
persists no device record, requests no report and does not crash; it adds one
ProcessingErrorEntry with the parse error message and no device identifier
when the store accepts that insert, and none otherwise; it adds the ledger
entry with status error and the same message when the ledger has no entry for
the file name and the insert does not fail, and none otherwise; and when the
file exists and neither the directory creation nor the rename fails, the file
is at `errors/<fileName>` under the output directory afterwards and no longer at
its old path. -/
theorem C7_parse_error_path (cfg : WatcherConfig) (env : JobEnv) (w : World) (job : Job)
    (msg : String) (hparse : Parse env.clock w.fs job.FilePath job.FileName = Res.err msg) :
    (processJob cfg env w job).db.deviceData = w.db.deviceData ∧
    (processJob cfg env w job).persisted = w.persisted ∧
    (processJob cfg env w job).reports = w.reports ∧
    (processJob cfg env w job).attempts = w.attempts ∧
    (processJob cfg env w job).crashed = w.crashed ∧
    (processJob cfg env w job).db.processingErrs =
      (if (env.saveProcessingErrorErr "").isNone then
        w.db.processingErrs ++
          [{ FileName := job.FileName, UnitGUID := "", ErrorMsg := msg, CreatedAt := env.clock 1 }]
       else w.db.processingErrs) ∧
    (processJob cfg env w job).db.processedFiles =
      (if env.saveProcessedFileErr.isNone && !hasLedgerEntry w.db job.FileName then
        w.db.processedFiles ++
          [{ FileName := job.FileName, FilePath := job.FilePath, ProcessedAt := env.clock 0,
             Status := "error", ErrorMsg := msg }]
       else w.db.processedFiles) ∧
    (∀ content, readFile w.fs job.FilePath = some content →
      env.mkdirErr = none → env.renameErr = none →
      readFile (processJob cfg env w job).fs
          (Join (subDir cfg.OutputDir "errors") job.FileName) = some content ∧
        (job.FilePath ≠ Join (subDir cfg.OutputDir "errors") job.FileName →
          readFile (processJob cfg env w job).fs job.FilePath = none)) := by
  rw [processJob_parse_err cfg env w job msg hparse]
  obtain ⟨c1, a1, a2, a3, a4⟩ := saveProcessingErrorLogged_core env w
    { FileName := job.FileName, ErrorMsg := msg, CreatedAt := env.clock 1 }
  obtain ⟨c2, b1, b2, b3, b4⟩ := saveProcessedFileLogged_core env
    (saveProcessingErrorLogged env w
      { FileName := job.FileName, ErrorMsg := msg, CreatedAt := env.clock 1 })
    { FileName := job.FileName, FilePath := job.FilePath, ProcessedAt := env.clock 0,
      Status := "error", ErrorMsg := msg }
  have c := SameCore.trans c1 c2
  have hled : hasLedgerEntry (saveProcessingErrorLogged env w
      { FileName := job.FileName, ErrorMsg := msg, CreatedAt := env.clock 1 }).db job.FileName =
      hasLedgerEntry w.db job.FileName := by
    unfold hasLedgerEntry
    rw [a1]
  rw [hled, a1] at b4
  rw [a4] at b1
  rw [a2] at b2
  rw [a3] at b3
  generalize saveProcessedFileLogged env
    (saveProcessingErrorLogged env w
      { FileName := job.FileName, ErrorMsg := msg, CreatedAt := env.clock 1 })
    { FileName := job.FileName, FilePath := job.FilePath, ProcessedAt := env.clock 0,
      Status := "error", ErrorMsg := msg } = w2 at c b1 b2 b3 b4 c2
  refine ⟨?_, ?_, ?_, ?_, ?_, ?_, ?_, ?_⟩
  · rcases moveFileToError_cases cfg env w2 job.FilePath job.FileName with h | ⟨fs2, _, h⟩ <;>
      rw [h] <;> exact c.deviceData
  · rcases moveFileToError_cases cfg env w2 job.FilePath job.FileName with h | ⟨fs2, _, h⟩ <;>
      rw [h] <;> exact c.persisted
  · rcases moveFileToError_cases cfg env w2 job.FilePath job.FileName with h | ⟨fs2, _, h⟩ <;>
      rw [h] <;> exact b2
  · rcases moveFileToError_cases cfg env w2 job.FilePath job.FileName with h | ⟨fs2, _, h⟩ <;>
      rw [h] <;> exact b3
  · rcases moveFileToError_cases cfg env w2 job.FilePath job.FileName with h | ⟨fs2, _, h⟩ <;>
      rw [h] <;> exact c.crashed
  · rcases moveFileToError_cases cfg env w2 job.FilePath job.FileName with h | ⟨fs2, _, h⟩ <;>
      rw [h] <;> exact b1
  · rcases moveFileToError_cases cfg env w2 job.FilePath job.FileName with h | ⟨fs2, _, h⟩ <;>
      rw [h] <;> exact b4
  · intro content hcontent hm hr
    have hfile : readFile w2.fs job.FilePath = some content := by rw [c.fs]; exact hcontent
    obtain ⟨fs2, hren⟩ := rename_isSome w2.fs job.FilePath
      (Join (subDir cfg.OutputDir "errors") job.FileName) content hfile
    rw [moveFileToError_ok cfg env w2 job.FilePath job.FileName fs2 hm hr hren]
    simp only []
    by_cases hsame : job.FilePath = Join (subDir cfg.OutputDir "errors") job.FileName
    · rw [← hsame] at hren ⊢
      rw [rename_self w2.fs fs2 job.FilePath hren]
      exact ⟨hfile, fun hne => absurd rfl hne⟩
    · refine ⟨?_, fun _ => ?_⟩
      · rw [readFile_rename w2.fs fs2 _ _ _ hsame hren]
        simp [hfile]
      · rw [readFile_rename w2.fs fs2 _ _ _ hsame hren]
        simp [hsame]

/-- C7, witness: the job of a file that ends after its first header row. -/
theorem C7_parse_error_path_witness :
    (processJob demoCfg {} badWorld badJob).db.processedFiles =
      (if (({} : JobEnv).saveProcessedFileErr).isNone && !hasLedgerEntry badWorld.db badJob.FileName
       then
        badWorld.db.processedFiles ++
          [{ FileName := badJob.FileName, FilePath := badJob.FilePath,
             ProcessedAt := ({} : JobEnv).clock 0, Status := "error",
             ErrorMsg := "failed to skip second header: EOF" }]
       else badWorld.db.processedFiles) :=
  (C7_parse_error_path demoCfg {} badWorld badJob "failed to skip second header: EOF"
    (by decide)).2.2.2.2.2.2.1

/-- C8, refuted as stated. A file enqueued by two scans before its first job
ran, with the store rejecting the batch write of both jobs. The parse of the
second job succeeds and its batch write fails with the text boom2, yet the job
writes no ledger entry: the insert hits the unique index, and the ledger keeps
only the entry of the first job, which carries boom1. Likewise, when the store
refuses the ledger insert as it refused the batch, no ledger entry is written. -/
theorem C8_counterexample :
    afterFailedFirstJob.jobQueue.buf = [demoJob] ∧
    Parse (fun _ => 0) (dequeued afterFailedFirstJob).fs demoJob.FilePath demoJob.FileName =
      Res.ok demoRecords ∧
    SaveDeviceData (dequeued afterFailedFirstJob).db (some "boom2") demoRecords =
      Except.error "boom2" ∧
    (processJob demoCfg (storeDown "boom2") (dequeued afterFailedFirstJob)
      demoJob).db.processedFiles.map (fun f => f.ErrorMsg) = ["DB error: boom1"] ∧
    (processJob demoCfg
      { saveDeviceDataErr := some "connection refused",
        saveProcessedFileErr := some "connection refused" }
      demoWorld demoJob).db.processedFiles = [] :=
  ⟨by decide, by decide, rfl, by decide, by decide⟩

/-- C8 (amended). When the parse of a job succeeds and the batch write of its
records fails with the store error `e`, `processJob` leaves the file system as
it is (the file stays in the input directory, in neither archive nor errors),
requests no report, writes no ProcessingErrorEntry, persists no record and
does not crash; it adds the ledger entry with status error and the message
`DB error: e` when the ledger has no entry for the file name and the insert
does not fail, and leaves the ledger as it is otherwise. -/
theorem C8_store_failure_path (cfg : WatcherConfig) (env : JobEnv) (w : World) (job : Job)
    (records : List DeviceData) (e : String)
    (hparse : Parse env.clock w.fs job.FilePath job.FileName = Res.ok records)
    (hsave : SaveDeviceData w.db env.saveDeviceDataErr records = Except.error e) :
    (processJob cfg env w job).fs = w.fs ∧
    (processJob cfg env w job).reports = w.reports ∧
    (processJob cfg env w job).attempts = w.attempts ∧
    (processJob cfg env w job).db.processingErrs = w.db.processingErrs ∧
    (processJob cfg env w job).db.deviceData = w.db.deviceData ∧
    (processJob cfg env w job).persisted = w.persisted ∧
    (processJob cfg env w job).crashed = w.crashed ∧
    (processJob cfg env w job).db.processedFiles =
      (if env.saveProcessedFileErr.isNone && !hasLedgerEntry w.db job.FileName then
        w.db.processedFiles ++
          [{ FileName := job.FileName, FilePath := job.FilePath, ProcessedAt := env.clock 0,
             Status := "error", ErrorMsg := "DB error: " ++ e }]
       else w.db.processedFiles) := by
  rw [processJob_save_err cfg env w job records e hparse hsave]
  obtain ⟨c, b1, b2, b3, b4⟩ := saveProcessedFileLogged_core env w
    { FileName := job.FileName, FilePath := job.FilePath, ProcessedAt := env.clock 0,
      Status := "error", ErrorMsg := "DB error: " ++ e }
  exact ⟨c.fs, b2, b3, b1, c.deviceData, c.persisted, c.crashed, b4⟩

/-- C8, witness: the job of `in/f.tsv` while the store rejects the batch write. -/
theorem C8_store_failure_path_witness :
    (processJob demoCfg (storeDown "boom") demoWorld demoJob).fs = demoWorld.fs :=
  (C8_store_failure_path demoCfg (storeDown "boom") demoWorld demoJob demoRecords "boom"
    (by decide) rfl).1

/-! ## Worker: the success path C9 -/

/-- C9, refuted as stated. A file enqueued by two scans before its first job
ran; the batch write of the first job fails, so the ledger gets an entry with
status error and the file stays. The parse and the batch write of the second
job both succeed, and no report fails, yet the job writes no ledger entry with
status success: the insert hits the unique index and the ledger keeps status
error, while the three records are persisted and the file goes to archive. -/
theorem C9_counterexample :
    afterFailedFirstJob.jobQueue.buf = [demoJob] ∧
    Parse (fun _ => 0) (dequeued afterFailedFirstJob).fs demoJob.FilePath demoJob.FileName =
      Res.ok demoRecords ∧
    SaveDeviceData (dequeued afterFailedFirstJob).db none demoRecords =
      Except.ok { (dequeued afterFailedFirstJob).db with deviceData := demoRecords } ∧
    (processJob demoCfg {} (dequeued afterFailedFirstJob) demoJob).db.processedFiles.map
      (fun f => f.Status) = ["error"] ∧
    (processJob demoCfg {} (dequeued afterFailedFirstJob) demoJob).db.deviceData =
      demoRecords ∧
    readFile (processJob demoCfg {} (dequeued afterFailedFirstJob) demoJob).fs
      (Join "out/archive" "f.tsv") = some demoFile :=
  ⟨by decide, by decide, rfl, by decide, by decide, by decide⟩

theorem cleanupFile_fs (cfg : WatcherConfig) (env env2 : JobEnv) (w w2 : World) (p : Path)
    (hfs : w2.fs = w.fs) (hm : env2.mkdirErr = env.mkdirErr)
    (hr : env2.renameErr = env.renameErr) :
    (cleanupFile cfg env2 w2 p).fs = (cleanupFile cfg env w p).fs := by
  unfold cleanupFile
  rw [hm, hr, hfs]
  cases env.mkdirErr with
  | some e => exact hfs
  | none =>
    cases env.renameErr with
    | some e => exact hfs
    | none =>
      simp only []
      cases hR : Rename w.fs p (Join (subDir cfg.OutputDir "archive") (Base p)) with
      | none => exact hfs
      | some fs2 => rfl

theorem cleanupFile_rest (cfg : WatcherConfig) (env : JobEnv) (w : World) (p : Path) :
    (cleanupFile cfg env w p).db = w.db ∧ (cleanupFile cfg env w p).persisted = w.persisted ∧
    (cleanupFile cfg env w p).crashed = w.crashed ∧
    (cleanupFile cfg env w p).jobQueue = w.jobQueue := by
  rcases cleanupFile_cases cfg env w p with h | ⟨fs2, _, h⟩ <;> rw [h] <;>
    exact ⟨rfl, rfl, rfl, rfl⟩

/-- The state after a job whose parse and batch write succeeded, field by field. -/
theorem processJob_saved_fields (cfg : WatcherConfig) (env : JobEnv) (w : World) (job : Job)
    (records : List DeviceData) (db1 : MongoDB)
    (h : Parse env.clock w.fs job.FilePath job.FileName = Res.ok records)
    (hs : SaveDeviceData w.db env.saveDeviceDataErr records = Except.ok db1) :
    (processJob cfg env w job).db.deviceData = w.db.deviceData ++ records ∧
    (processJob cfg env w job).persisted = w.persisted ++ [job.FileName] ∧
    (processJob cfg env w job).crashed = w.crashed ∧
    (processJob cfg env w job).jobQueue = w.jobQueue ∧
    (processJob cfg env w job).db.processedFiles =
      (if env.saveProcessedFileErr.isNone && !hasLedgerEntry w.db job.FileName then
        w.db.processedFiles ++
          [{ FileName := job.FileName, FilePath := job.FilePath, ProcessedAt := env.clock 0,
             Status := "success" }]
       else w.db.processedFiles) ∧
    (processJob cfg env w job).fs = (cleanupFile cfg env w job.FilePath).fs := by
  rw [processJob_saved cfg env w job records db1 h hs]
  obtain ⟨_, c1, l1, _⟩ := reportLoop_frame env job (getUniqueUnitGUIDs env.mapOrder records)
    { w with db := db1, persisted := w.persisted ++ [job.FileName] }
  obtain ⟨c2, _, _, _, l2⟩ := saveProcessedFileLogged_core env
    (reportLoop env job (getUniqueUnitGUIDs env.mapOrder records)
      { w with db := db1, persisted := w.persisted ++ [job.FileName] }).1
    { FileName := job.FileName, FilePath := job.FilePath, ProcessedAt := env.clock 0,
      Status := "success" }
  have c := SameCore.trans c1 c2
  obtain ⟨d1, d2, _⟩ := saveDeviceData_ok w.db db1 _ records hs
  have hled : hasLedgerEntry (reportLoop env job (getUniqueUnitGUIDs env.mapOrder records)
      { w with db := db1, persisted := w.persisted ++ [job.FileName] }).1.db job.FileName =
      hasLedgerEntry w.db job.FileName := by
    unfold hasLedgerEntry
    rw [l1]
    simp only [d2]
  rw [hled, l1] at l2
  simp only [d2] at l2
  generalize saveProcessedFileLogged env
    (reportLoop env job (getUniqueUnitGUIDs env.mapOrder records)
      { w with db := db1, persisted := w.persisted ++ [job.FileName] }).1
    { FileName := job.FileName, FilePath := job.FilePath, ProcessedAt := env.clock 0,
      Status := "success" } = w3 at c l2 c2
  obtain ⟨e1, e2, e3, e4⟩ := cleanupFile_rest cfg env w3 job.FilePath
  refine ⟨?_, ?_, ?_, ?_, ?_, ?_⟩
  · rw [e1, c.deviceData]
    exact d1
  · rw [e2, c.persisted]
  · rw [e3, c.crashed]
  · rw [e4, c.jobQueue]
  · rw [e1, l2]
  · exact cleanupFile_fs cfg env env w w3 job.FilePath c.fs rfl rfl

/-- C9 (amended). When the parse and the batch write of a job succeed,
`processJob` persists the records and does not crash, whatever reports fail. It
adds the ledger entry with status success when the ledger has no entry for the
file name and the insert does not fail, and leaves the ledger as it is
otherwise. When neither the directory creation nor the rename fails, the file
is afterwards at `archive/<base name>` under the output directory and no longer
at its old path. Ledger, file system and device records after the job are the
same for any two runs that differ only in the outcomes of the report step
(fetch, rendering, error-entry insert) and in the order of the devices. A file
of two header rows and three valid data rows gives three persisted records, a
success ledger entry and the file in archive, also when every report fails. -/
theorem C9_report_outcomes_do_not_matter (cfg : WatcherConfig) (env : JobEnv) (w : World)
    (job : Job) (records : List DeviceData) (db1 : MongoDB)
    (hparse : Parse env.clock w.fs job.FilePath job.FileName = Res.ok records)
    (hsave : SaveDeviceData w.db env.saveDeviceDataErr records = Except.ok db1) :
    (processJob cfg env w job).db.deviceData = w.db.deviceData ++ records ∧
    (processJob cfg env w job).crashed = w.crashed ∧
    (processJob cfg env w job).db.processedFiles =
      (if env.saveProcessedFileErr.isNone && !hasLedgerEntry w.db job.FileName then
        w.db.processedFiles ++
          [{ FileName := job.FileName, FilePath := job.FilePath, ProcessedAt := env.clock 0,
             Status := "success" }]
       else w.db.processedFiles) ∧
    (env.mkdirErr = none → env.renameErr = none →
      job.FilePath ≠ Join (subDir cfg.OutputDir "archive") (Base job.FilePath) →
      readFile (processJob cfg env w job).fs
          (Join (subDir cfg.OutputDir "archive") (Base job.FilePath)) =
        readFile w.fs job.FilePath ∧
      readFile (processJob cfg env w job).fs job.FilePath = none) ∧
    (∀ env2 : JobEnv, env2.clock = env.clock →
      env2.saveDeviceDataErr = env.saveDeviceDataErr →
      env2.saveProcessedFileErr = env.saveProcessedFileErr →
      env2.mkdirErr = env.mkdirErr → env2.renameErr = env.renameErr →
      (processJob cfg env2 w job).db.processedFiles =
        (processJob cfg env w job).db.processedFiles ∧
      (processJob cfg env2 w job).fs = (processJob cfg env w job).fs ∧
      (processJob cfg env2 w job).db.deviceData = (processJob cfg env w job).db.deviceData) ∧
    ((run demoCfg demoWorld [Event.scan {}, Event.work {}]).db.deviceData = demoRecords ∧
      (run demoCfg demoWorld [Event.scan {}, Event.work {}]).db.processedFiles.map
        (fun f => f.Status) = ["success"] ∧
      readFile (run demoCfg demoWorld [Event.scan {}, Event.work {}]).fs
        (Join "out/archive" "f.tsv") = some demoFile ∧
      readFile (run demoCfg demoWorld [Event.scan {}, Event.work {}]).fs
        (Join "in" "f.tsv") = none) ∧
    ((run demoCfg demoWorld
        [Event.scan {}, Event.work { renderErr := fun _ => some "no font" }]).db.deviceData =
        demoRecords ∧
      (run demoCfg demoWorld
        [Event.scan {}, Event.work { renderErr := fun _ => some "no font" }]).db.processedFiles.map
        (fun f => f.Status) = ["success"] ∧
      readFile (run demoCfg demoWorld
        [Event.scan {}, Event.work { renderErr := fun _ => some "no font" }]).fs
        (Join "out/archive" "f.tsv") = some demoFile) := by
  obtain ⟨f1, _, f3, _, f5, f6⟩ := processJob_saved_fields cfg env w job records db1 hparse hsave
  refine ⟨f1, f3, f5, ?_, ?_, by decide, by decide⟩
  · intro hm hr hne
    rw [f6]
    obtain ⟨content, hc⟩ := parse_ok_file _ _ _ _ _ hparse
    obtain ⟨fs2, hren⟩ := rename_isSome w.fs job.FilePath
      (Join (subDir cfg.OutputDir "archive") (Base job.FilePath)) content hc
    rw [cleanupFile_ok cfg env w job.FilePath fs2 hm hr hren]
    simp only []
    rw [readFile_rename w.fs fs2 _ _ _ hne hren, readFile_rename w.fs fs2 _ _ _ hne hren]
    simp [hne]
  · intro env2 hclock hsd hsp hm hr
    have hparse2 : Parse env2.clock w.fs job.FilePath job.FileName = Res.ok records := by
      rw [hclock]; exact hparse
    have hsave2 : SaveDeviceData w.db env2.saveDeviceDataErr records = Except.ok db1 := by
      rw [hsd]; exact hsave
    obtain ⟨g1, _, _, _, g5, g6⟩ :=
      processJob_saved_fields cfg env2 w job records db1 hparse2 hsave2
    refine ⟨?_, ?_, ?_⟩
    · rw [g5, f5, hsp, hclock]
    · rw [g6, f6]
      exact cleanupFile_fs cfg env env2 w w job.FilePath rfl hm hr
    · rw [g1, f1]

/-- C9, witness: the job of `in/f.tsv` in the fresh pool, no fault anywhere. -/
theorem C9_report_outcomes_do_not_matter_witness :
    (processJob demoCfg {} demoWorld demoJob).db.deviceData =
      demoWorld.db.deviceData ++ demoRecords :=
  (C9_report_outcomes_do_not_matter demoCfg {} demoWorld demoJob demoRecords
    { deviceData := demoRecords } (by decide) rfl).1

/-- C10, witness: the job of `in/f.tsv` makes one attempt for G1 and one for G2. -/
theorem C10_unique_guids_one_attempt_each_witness :
    (processJob demoCfg {} demoWorld demoJob).attempts =
      demoWorld.attempts ++ getUniqueUnitGUIDs MapOrder.insertion demoRecords :=
  (C10_unique_guids_one_attempt_each MapOrder.insertion demoRecords).2.2.2.2.2
    demoCfg {} demoWorld demoJob { deviceData := demoRecords } rfl (by decide) rfl

/-! ## At-most-once persistence: C4 -/

/-- C4, refuted as stated. The ledger enforces file-name uniqueness and the
file `in/f.tsv` is enqueued by two scans before its first job runs. The rename
to the archive fails in the first job (the job logs it and ends), so the file
is still in the input directory when the second job runs: `SaveDeviceData`
succeeds in both jobs and the store holds the three records twice. -/
theorem C4_counterexample :
    (run demoCfg demoWorld
      [Event.scan {}, Event.scan {}, Event.work { renameErr := some "invalid cross-device link" },
       Event.work {}]).persisted = ["f.tsv", "f.tsv"] ∧
    (run demoCfg demoWorld
      [Event.scan {}, Event.scan {}, Event.work { renameErr := some "invalid cross-device link" },
       Event.work {}]).db.deviceData = demoRecords ++ demoRecords ∧
    (run demoCfg demoWorld
      [Event.scan {}, Event.scan {}, Event.work { renameErr := some "invalid cross-device link" },
       Event.work {}]).db.processedFiles.length = 1 := by
  decide

theorem inv_scan (cfg : WatcherConfig) (env : ScanEnv) (w : World)
    (hmeta : hasMeta (cleanPath cfg.InputDir) = false) (h : Inv cfg w) :
    Inv cfg (scanDirectory cfg env w) := by
  obtain ⟨_, hfs, hp, hc, _⟩ := scanDirectory_db cfg env w
  obtain ⟨added, hq, hadd⟩ := scanDirectory_added cfg env w
  refine ⟨?_, ?_, ?_⟩
  · rw [hp]; exact h.once
  · intro hcr j hj
    rw [hc] at hcr
    rw [hq] at hj
    rcases List.mem_append.mp hj with h1 | h1
    · exact h.jobs hcr j h1
    · obtain ⟨_, hg, hn⟩ := hadd j h1
      obtain ⟨hmatch, _, hd⟩ := mem_Glob env.metaDirs w.fs cfg.InputDir j.FilePath hg
      rw [hn]
      refine ⟨?_, matchesTsv_plain _ hmatch⟩
      unfold inputPath Base
      rw [← hd hmeta]
  · intro hcr f hf
    rw [hc] at hcr
    rw [hp] at hf
    rw [hfs]
    exact h.gone hcr f hf

/-- A rename keeps a set of input paths absent when none of them is its target. -/
theorem gone_after_rename (cfg : WatcherConfig) (names : List String) (fs fs2 : FS)
    (src dst : Path)
    (hgone : ∀ f ∈ names, readFile fs (inputPath cfg f) = none)
    (hren : Rename fs src dst = some fs2)
    (hdst : ∀ f ∈ names, inputPath cfg f = dst → src = dst) :
    ∀ f ∈ names, readFile fs2 (inputPath cfg f) = none := by
  intro f hf
  by_cases hsame : src = dst
  · subst hsame
    rw [rename_self fs fs2 src hren]
    exact hgone f hf
  · rw [readFile_rename fs fs2 src dst _ hsame hren]
    have hq : ¬ inputPath cfg f = dst := fun e => hsame (hdst f hf e)
    simp only [hq, if_false]
    split_ifs
    · rfl
    · exact hgone f hf

theorem inv_processJob (cfg : WatcherConfig) (env : JobEnv) (w : World) (job : Job)
    (hdir : cleanPath cfg.InputDir ≠ cleanPath (subDir cfg.OutputDir "archive"))
    (hm : env.mkdirErr = none) (hr : env.renameErr = none)
    (hjob : job.FilePath = inputPath cfg job.FileName) (hplain : plainName job.FileName)
    (hc : w.crashed = false) (h : Inv cfg w) : Inv cfg (processJob cfg env w job) := by
  cases hp : Parse env.clock w.fs job.FilePath job.FileName with
  | panic =>
    rw [processJob_parse_panic cfg env w job hp]
    exact ⟨h.once, fun hcr => by simp at hcr, fun hcr => by simp at hcr⟩
  | err msg =>
    rw [processJob_parse_err cfg env w job msg hp]
    obtain ⟨c1, _⟩ := saveProcessingErrorLogged_core env w
      { FileName := job.FileName, ErrorMsg := msg, CreatedAt := env.clock 1 }
    obtain ⟨c2, _⟩ := saveProcessedFileLogged_core env
      (saveProcessingErrorLogged env w
        { FileName := job.FileName, ErrorMsg := msg, CreatedAt := env.clock 1 })
      { FileName := job.FileName, FilePath := job.FilePath, ProcessedAt := env.clock 0,
        Status := "error", ErrorMsg := msg }
    have c := SameCore.trans c1 c2
    generalize saveProcessedFileLogged env
      (saveProcessingErrorLogged env w
        { FileName := job.FileName, ErrorMsg := msg, CreatedAt := env.clock 1 })
      { FileName := job.FileName, FilePath := job.FilePath, ProcessedAt := env.clock 0,
        Status := "error", ErrorMsg := msg } = w2 at c c2
    rcases moveFileToError_cases cfg env w2 job.FilePath job.FileName with hmv | ⟨fs2, hren, hmv⟩
    · rw [hmv]
      refine ⟨?_, ?_, ?_⟩
      · rw [c.persisted]; exact h.once
      · intro _ j hj
        rw [c.jobQueue] at hj
        exact h.jobs hc j hj
      · intro _ f hf
        rw [c.persisted] at hf
        rw [c.fs]
        exact h.gone hc f hf
    · rw [hmv]
      refine ⟨?_, ?_, ?_⟩
      · simp only []
        rw [c.persisted]; exact h.once
      · intro _ j hj
        simp only [] at hj
        rw [c.jobQueue] at hj
        exact h.jobs hc j hj
      · intro _ f hf
        simp only [] at hf ⊢
        rw [c.persisted] at hf
        rw [c.fs] at hren
        refine gone_after_rename cfg w.persisted w.fs fs2 job.FilePath _
          (h.gone hc) hren ?_ f hf
        intro g _ hg
        rw [hjob]
        rw [Join_plain _ _ hplain] at hg ⊢
        unfold inputPath at hg ⊢
        injection hg with hd hb
        rw [hd]
  | ok records =>
    cases hs : SaveDeviceData w.db env.saveDeviceDataErr records with
    | error e =>
      rw [processJob_save_err cfg env w job records e hp hs]
      obtain ⟨c, _⟩ := saveProcessedFileLogged_core env w
        { FileName := job.FileName, FilePath := job.FilePath, ProcessedAt := env.clock 0,
          Status := "error", ErrorMsg := "DB error: " ++ e }
      refine ⟨?_, ?_, ?_⟩
      · rw [c.persisted]; exact h.once
      · intro _ j hj
        rw [c.jobQueue] at hj
        exact h.jobs hc j hj
      · intro _ f hf
        rw [c.persisted] at hf
        rw [c.fs]
        exact h.gone hc f hf
    | ok db1 =>
      obtain ⟨_, f2, _, f4, _, f6⟩ := processJob_saved_fields cfg env w job records db1 hp hs
      obtain ⟨content, hcont⟩ := parse_ok_file _ _ _ _ _ hp
      have hnew : job.FileName ∉ w.persisted := by
        intro hmem
        have := h.gone hc job.FileName hmem
        rw [← hjob, hcont] at this
        exact absurd this (by simp)
      have hbase : Base job.FilePath = job.FileName := by rw [hjob]; rfl
      have hdst : Join (subDir cfg.OutputDir "archive") (Base job.FilePath) =
          { dir := cleanPath (subDir cfg.OutputDir "archive"), base := job.FileName } := by
        rw [hbase, Join_plain _ _ hplain]
      obtain ⟨fs2, hren⟩ := rename_isSome w.fs job.FilePath
        (Join (subDir cfg.OutputDir "archive") (Base job.FilePath)) content hcont
      have hfs : (processJob cfg env w job).fs = fs2 := by
        rw [f6, cleanupFile_ok cfg env w job.FilePath fs2 hm hr hren]
      have hne : job.FilePath ≠ Join (subDir cfg.OutputDir "archive") (Base job.FilePath) := by
        rw [hdst, hjob]
        intro e
        unfold inputPath at e
        injection e with hd _
        exact hdir hd
      refine ⟨?_, ?_, ?_⟩
      · intro f
        rw [f2, List.count_append]
        by_cases hf : f = job.FileName
        · subst hf
          rw [List.count_eq_zero_of_not_mem hnew]
          simp
        · have : List.count f [job.FileName] = 0 := by
            apply List.count_eq_zero_of_not_mem
            simp [hf]
          rw [this]
          exact h.once f
      · intro _ j hj
        rw [f4] at hj
        exact h.jobs hc j hj
      · intro _ f hf
        rw [f2] at hf
        rw [hfs, readFile_rename w.fs fs2 _ _ _ hne hren]
        have hq : ¬ inputPath cfg f =
            Join (subDir cfg.OutputDir "archive") (Base job.FilePath) := by
          rw [hdst]
          intro e
          unfold inputPath at e
          injection e with hd _
          exact hdir hd
        simp only [hq, if_false]
        split_ifs with hsrc
        · rfl
        · rcases List.mem_append.mp hf with h1 | h1
          · exact h.gone hc f h1
          · simp at h1
            subst h1
            exact absurd hjob.symm hsrc

theorem inv_step (cfg : WatcherConfig) (w : World) (e : Event)
    (hmeta : hasMeta (cleanPath cfg.InputDir) = false)
    (hdir : cleanPath cfg.InputDir ≠ cleanPath (subDir cfg.OutputDir "archive"))
    (hmove : relocationWorks e) (h : Inv cfg w) : Inv cfg (step cfg w e) := by
  unfold step
  cases hc : w.crashed with
  | true => simpa using h
  | false =>
    simp only [Bool.false_eq_true, if_false]
    cases e with
    | scan env => exact inv_scan cfg env w hmeta h
    | work env =>
      simp only [workerStep]
      cases hq : w.jobQueue.buf with
      | nil => exact h
      | cons job rest =>
        simp only []
        have hjobs := h.jobs hc
        rw [hq] at hjobs
        exact inv_processJob cfg env
          { w with jobQueue := { w.jobQueue with buf := rest } } job hdir hmove.1 hmove.2
          (hjobs job (by simp)).1 (hjobs job (by simp)).2 hc
          ⟨h.once, fun _ j hj => hjobs j (by simp [hj]), fun _ => h.gone hc⟩

theorem inv_run (cfg : WatcherConfig) (events : List Event)
    (hmeta : hasMeta (cleanPath cfg.InputDir) = false)
    (hdir : cleanPath cfg.InputDir ≠ cleanPath (subDir cfg.OutputDir "archive")) :
    ∀ w : World, (∀ e ∈ events, relocationWorks e) → Inv cfg w → Inv cfg (run cfg w events) := by
  induction events with
  | nil => intro w _ h; exact h
  | cons e rest ih =>
    intro w hmove h
    exact ih (step cfg w e) (fun x hx => hmove x (by simp [hx]))
      (inv_step cfg w e hmeta hdir (hmove e (by simp)) h)

/-- The archive directory named as the input directory, with a trailing slash:
`filepath.Join` cleans both names, so the rename of the first job moves
`out/archive/f.tsv` onto itself and succeeds. The file is still listed when the
second job runs, and `SaveDeviceData` succeeds in both jobs. -/
theorem archive_as_input_persists_twice :
    cleanPath "out/archive/" = cleanPath (subDir "out" "archive") ∧
    (run { InputDir := "out/archive/", OutputDir := "out" }
      (NewWorkerPool {} [(Join "out/archive" "f.tsv", demoFile)])
      [Event.scan {}, Event.scan {}, Event.work {}, Event.work {}]).persisted =
        ["f.tsv", "f.tsv"] := by
  decide

/-- An input directory whose name is a pattern: `in*` matches the directories
`in` and `in2`, each with a file `f.tsv`. One scan enqueues both files under
the one file name `f.tsv`, and `SaveDeviceData` succeeds in both jobs. -/
theorem pattern_input_dir_persists_twice :
    hasMeta (cleanPath "in*") = true ∧
    (run { InputDir := "in*", OutputDir := "out" }
      (NewWorkerPool {} [(Join "in" "f.tsv", demoFile), (Join "in2" "f.tsv", demoFile)])
      [Event.scan { metaDirs := ["in", "in2"] }, Event.work {}, Event.work {}]).persisted =
        ["f.tsv", "f.tsv"] := by
  decide

/-- C4 (amended). Take a pool whose queue is empty and that has persisted
nothing yet, and any sequence of scans and job runs, each run to completion
before the next event starts, in which no directory creation and no rename
fails. Let the name of the input directory, once cleaned, hold no meta
character of `Glob` and differ from the cleaned name of the archive directory
`Join(OutputDir, "archive")`, and let both directory names be resolved from
the same place (both absolute, or both relative and below the working
directory), so that different clean names are different directories. Then,
whatever else fails and however often a file was enqueued before its first job
ran, `SaveDeviceData` succeeds for at most one job per file name. -/
theorem C4_persisted_at_most_once (cfg : WatcherConfig) (w : World) (events : List Event)
    (hmeta : hasMeta (cleanPath cfg.InputDir) = false)
    (hdir : cleanPath cfg.InputDir ≠ cleanPath (subDir cfg.OutputDir "archive"))
    (_hanchor : anchoredAlike cfg.InputDir cfg.OutputDir = true)
    (hqueue : w.jobQueue.buf = []) (hfresh : w.persisted = [])
    (hmove : ∀ e ∈ events, relocationWorks e) :
    ∀ f : String, (run cfg w events).persisted.count f ≤ 1 := by
  have h0 : Inv cfg w :=
    ⟨fun f => by rw [hfresh]; simp, fun _ j hj => by rw [hqueue] at hj; simp at hj,
     fun _ f hf => by rw [hfresh] at hf; simp at hf⟩
  exact (inv_run cfg events hmeta hdir w hmove h0).once

/-- C4, witness: two scans in a row, then the two jobs of `in/f.tsv`. -/
theorem C4_persisted_at_most_once_witness :
    (run demoCfg demoWorld
      [Event.scan {}, Event.scan {}, Event.work {}, Event.work {}]).persisted.count "f.tsv" ≤ 1 :=
  C4_persisted_at_most_once demoCfg demoWorld
    [Event.scan {}, Event.scan {}, Event.work {}, Event.work {}]
    (by decide) (by decide) (by decide) rfl rfl
    (fun e he => by
      simp only [List.mem_cons, List.mem_singleton, List.not_mem_nil, or_false] at he
      rcases he with h | h | h | h <;> subst h <;> simp [relocationWorks])
    "f.tsv"

/-! ## Read API: lemmas -/

/-- What `strconv.ParseInt(s, 10, 64)` returns, by the numeral `s` denotes. -/
theorem parseInt64_eq (s : String) :
    ParseInt64 s =
      match numeralValue s with
      | none => (0, false)
      | some v =>
        if v > maxInt then (maxInt, false)
        else if v < minInt then (minInt, false) else (v, true) := by
  unfold ParseInt64 Atoi numeralValue
  cases hs : s.data with
  | nil => simp
  | cons c cs =>
    by_cases hm : c = '-'
    · subst hm
      cases hd : digitsValue cs with
      | none => simp [hd]
      | some v =>
        simp [hd, maxInt, minInt]
        split_ifs <;> first | rfl | omega
    · by_cases hp : c = '+'
      · subst hp
        cases hd : digitsValue cs with
        | none => simp [hd]
        | some v =>
          simp [hd, maxInt, minInt]
          split_ifs <;> first | rfl | omega
      · cases hd : digitsValue (c :: cs) with
        | none => simp [hd, hm, hp]
        | some v =>
          simp [hd, hm, hp, maxInt, minInt]
          split_ifs <;> first | rfl | omega

/-- The value `getPaginationParams` takes for a parameter text `s` with default
`d`: the numeral's value when it is positive and fits an `int64`, else `d`. -/
theorem paramValue_eq (s : String) (d : Int) :
    (if s ≠ "" then
        if (ParseInt64 s).2 = true ∧ (ParseInt64 s).1 > 0 then (ParseInt64 s).1 else d
      else d) =
      match numeralValue s with
      | none => d
      | some v => if 0 < v ∧ v ≤ maxInt then v else d := by
  by_cases hs : s = ""
  · subst hs
    rfl
  · simp only [ne_eq, hs, not_false_eq_true, if_true]
    rw [parseInt64_eq]
    cases hn : numeralValue s with
    | none => simp
    | some v =>
      simp only [maxInt, minInt]
      split_ifs <;> simp_all <;> omega

theorem getPaginationParams_eq (q : Query) :
    getPaginationParams q =
      ((match numeralValue (queryGet q "page") with
        | none => 1
        | some v => if 0 < v ∧ v ≤ maxInt then v else 1),
       (if (match numeralValue (queryGet q "limit") with
            | none => (10 : Int)
            | some v => if 0 < v ∧ v ≤ maxInt then v else 10) > 100 then 100
        else
          (match numeralValue (queryGet q "limit") with
            | none => (10 : Int)
            | some v => if 0 < v ∧ v ≤ maxInt then v else 10))) := by
  unfold getPaginationParams
  simp only []
  rw [paramValue_eq, paramValue_eq]

/-- The bounds of what `getPaginationParams` returns. -/
theorem getPaginationParams_bounds (q : Query) :
    1 ≤ (getPaginationParams q).1 ∧ 1 ≤ (getPaginationParams q).2 ∧
    (getPaginationParams q).2 ≤ 100 ∧ (getPaginationParams q).1 ≤ maxInt := by
  rw [getPaginationParams_eq]
  refine ⟨?_, ?_, ?_, ?_⟩
  · cases numeralValue (queryGet q "page") with
    | none => simp
    | some v => simp only []; split_ifs <;> omega
  · cases numeralValue (queryGet q "limit") with
    | none => simp
    | some v => simp only []; split_ifs <;> omega
  · cases numeralValue (queryGet q "limit") with
    | none => simp
    | some v => simp only []; split_ifs <;> omega
  · cases numeralValue (queryGet q "page") with
    | none => simp [maxInt]
    | some v =>
      simp only []
      split_ifs with h
      · exact h.2
      · simp [maxInt]

/-! ## Read API: the property C11 -/

/-- C11. For every request, `getPaginationParams` returns a page of at least 1
and a limit between 1 and 100. The page is the value of the `page` parameter
when that text parses as a positive integer (a decimal numeral whose value is
positive and fits an `int64`, which is when `strconv.ParseInt` succeeds with a
positive value) and 1 otherwise: parameter absent, not a numeral, zero,
negative, or out of range. The limit is the value of the `limit` parameter
under the same condition, capped at 100, and 10 otherwise. A requested limit of
500 gives 100; a page of 0 or -3 gives 1. -/
theorem C11_pagination_params (q : Query) :
    1 ≤ (getPaginationParams q).1 ∧
    1 ≤ (getPaginationParams q).2 ∧ (getPaginationParams q).2 ≤ 100 ∧
    (∀ v : Int, numeralValue (queryGet q "page") = some v → 0 < v → v ≤ maxInt →
      (getPaginationParams q).1 = v) ∧
    (numeralValue (queryGet q "page") = none → (getPaginationParams q).1 = 1) ∧
    (∀ v : Int, numeralValue (queryGet q "page") = some v → (v ≤ 0 ∨ maxInt < v) →
      (getPaginationParams q).1 = 1) ∧
    (∀ v : Int, numeralValue (queryGet q "limit") = some v → 0 < v → v ≤ maxInt →
      (getPaginationParams q).2 = if v > 100 then 100 else v) ∧
    (numeralValue (queryGet q "limit") = none → (getPaginationParams q).2 = 10) ∧
    (∀ v : Int, numeralValue (queryGet q "limit") = some v → (v ≤ 0 ∨ maxInt < v) →
      (getPaginationParams q).2 = 10) ∧
    numeralValue (queryGet [] "page") = none ∧
    getPaginationParams [] = (1, 10) ∧
    getPaginationParams [("limit", "500")] = (1, 100) ∧
    getPaginationParams [("page", "0"), ("limit", "25")] = (1, 25) ∧
    getPaginationParams [("page", "-3")] = (1, 10) ∧
    getPaginationParams [("page", "abc"), ("limit", "x")] = (1, 10) ∧
    getPaginationParams [("page", "7"), ("limit", "100")] = (7, 100) := by
  rw [getPaginationParams_eq]
  refine ⟨?_, ?_, ?_, ?_, ?_, ?_, ?_, ?_, ?_, by decide, by decide, by decide, by decide,
    by decide, by decide, by decide⟩
  · cases numeralValue (queryGet q "page") with
    | none => simp
    | some v => simp only []; split_ifs <;> omega
  · cases numeralValue (queryGet q "limit") with
    | none => simp
    | some v => simp only []; split_ifs <;> omega
  · cases numeralValue (queryGet q "limit") with
    | none => simp
    | some v => simp only []; split_ifs <;> omega
  · intro v hv hpos hmax
    simp [hv, hpos, hmax]
  · intro hv
    simp [hv]
  · intro v hv hbad
    simp only [hv]
    split_ifs with h
    · omega
    · rfl
  · intro v hv hpos hmax
    simp [hv, hpos, hmax]
  · intro hv
    simp [hv]
  · intro v hv hbad
    simp only [hv]
    have h : ¬ (0 < v ∧ v ≤ maxInt) := by omega
    simp [h]

/-- C11, witness: the request `?page=2&limit=500`. -/
theorem C11_pagination_params_witness :
    (getPaginationParams [("page", "2"), ("limit", "500")]).1 = 2 ∧
    (getPaginationParams [("page", "2"), ("limit", "500")]).2 = 100 :=
  ⟨(C11_pagination_params [("page", "2"), ("limit", "500")]).2.2.2.1 2 (by decide)
      (by decide) (by decide),
   (C11_pagination_params [("page", "2"), ("limit", "500")]).2.2.2.2.2.2.1 500 (by decide)
      (by decide) (by decide)⟩

/-! ## Pagination arithmetic: lemmas -/

theorem wrapInt64_of_range (x : Int) (hlo : minInt ≤ x) (hhi : x ≤ maxInt) :
    wrapInt64 x = x := by
  unfold wrapInt64
  unfold minInt at hlo
  unfold maxInt at hhi
  omega

/-- For a count and a positive limit, both `int64`, the page count of the code
is the quotient, plus one when the division leaves a remainder. -/
theorem totalPagesOf_eq (total limit : Int) (ht : 0 ≤ total) (hmax : total ≤ maxInt)
    (hl : 1 ≤ limit) :
    totalPagesOf total limit = if total % limit = 0 then total / limit else total / limit + 1 := by
  unfold totalPagesOf
  simp only []
  rw [Int.tdiv_eq_ediv ht (by omega), Int.tmod_eq_emod ht (by omega)]
  have hr0 : 0 ≤ total % limit := Int.emod_nonneg _ (by omega)
  have hrl : total % limit < limit := Int.emod_lt_of_pos _ (by omega)
  have hq0 : 0 ≤ total / limit := Int.ediv_nonneg ht (by omega)
  have hdec : limit * (total / limit) + total % limit = total := Int.ediv_add_emod total limit
  by_cases hr : total % limit = 0
  · simp [hr]
  · have hpos : total % limit > 0 := by omega
    simp only [hpos, hr, if_true, if_false]
    apply wrapInt64_of_range
    · unfold minInt; omega
    · have h2 : 2 ≤ limit := by omega
      have : 2 * (total / limit) ≤ limit * (total / limit) :=
        Int.mul_le_mul_of_nonneg_right h2 hq0
      unfold maxInt at hmax ⊢
      omega

theorem totalPagesOf_ceil (total limit : Int) (ht : 0 ≤ total) (hmax : total ≤ maxInt)
    (hl : 1 ≤ limit) :
    0 ≤ totalPagesOf total limit ∧ total ≤ totalPagesOf total limit * limit ∧
    ∀ k : Int, 0 ≤ k → total ≤ k * limit → totalPagesOf total limit ≤ k := by
  rw [totalPagesOf_eq total limit ht hmax hl]
  have hr0 : 0 ≤ total % limit := Int.emod_nonneg _ (by omega)
  have hrl : total % limit < limit := Int.emod_lt_of_pos _ (by omega)
  have hq0 : 0 ≤ total / limit := Int.ediv_nonneg ht (by omega)
  have hdec : total / limit * limit + total % limit = total := Int.ediv_add_emod' total limit
  have hlpos : 0 < limit := by omega
  by_cases hr : total % limit = 0
  · simp only [hr, if_true]
    refine ⟨hq0, by omega, ?_⟩
    intro k _ hk
    have : total / limit * limit ≤ k * limit := by omega
    exact le_of_mul_le_mul_right this hlpos
  · simp only [hr, if_false]
    refine ⟨by omega, ?_, ?_⟩
    · have : (total / limit + 1) * limit = total / limit * limit + limit := by ring
      omega
    · intro k _ hk
      have : total / limit * limit < k * limit := by omega
      have := lt_of_mul_lt_mul_right this (le_of_lt hlpos)
      omega

/-- All sort keys are absent, so the sort of the query leaves the order as stored. -/
theorem sortTimestampDesc_eq (docs : List DeviceData) : sortTimestampDesc docs = docs := by
  unfold sortTimestampDesc
  induction docs with
  | nil => rfl
  | cons d rest ih =>
    simp only [List.insertionSort]
    rw [ih]
    cases rest with
    | nil => rfl
    | cons e tail => simp [List.orderedInsert, timestampKey, keyGe]

/-- With a skip that did not wrap below zero and a non-zero limit the query
returns, and this is what it returns. -/
theorem getDeviceData_ok (db : MongoDB) (unitGUID : String) (page limit : Int)
    (hskip : 0 ≤ wrapInt64 ((page - 1) * limit)) (hl : limit ≠ 0) :
    GetDeviceDataByUnitGUID db none unitGUID page limit =
      Res.ok
        { Data := ((db.deviceData.filter (fun d => d.UnitGUID = unitGUID)).drop
            (wrapInt64 ((page - 1) * limit)).toNat).take limit.natAbs,
          Total := ((db.deviceData.filter (fun d => d.UnitGUID = unitGUID)).length : Int),
          Page := page, Limit := limit,
          TotalPages := totalPagesOf
            ((db.deviceData.filter (fun d => d.UnitGUID = unitGUID)).length : Int) limit } := by
  unfold GetDeviceDataByUnitGUID totalPagesOf
  have h : ¬ wrapInt64 ((page - 1) * limit) < 0 := by omega
  simp only [h, hl, if_false, sortTimestampDesc_eq]

/-- The query never panics when the limit is not zero. -/
theorem getDeviceData_no_panic (db : MongoDB) (fault : Option String) (unitGUID : String)
    (page limit : Int) (hl : limit ≠ 0) :
    GetDeviceDataByUnitGUID db fault unitGUID page limit ≠ Res.panic := by
  unfold GetDeviceDataByUnitGUID
  cases fault with
  | some e => simp
  | none =>
    simp only [hl, if_false]
    split_ifs <;> simp

/-- What the query returns for page `p` and limit `l`, both at least 1, while
the offset fits an `int64`: the total, and the records at the positions
`(p-1)*l` .. of the device's records in stored order, at most `l` of them. -/
theorem getDeviceData_page (db : MongoDB) (unitGUID : String) (p l : Nat)
    (hp : 1 ≤ p) (hl : 1 ≤ l) (hfit : ((p - 1) * l : Nat) ≤ 9223372036854775807) :
    ∃ r, GetDeviceDataByUnitGUID db none unitGUID (p : Int) (l : Int) = Res.ok r ∧
      r.Total = ((db.deviceData.filter (fun d => d.UnitGUID = unitGUID)).length : Int) ∧
      r.Data = ((db.deviceData.filter (fun d => d.UnitGUID = unitGUID)).drop
        ((p - 1) * l)).take l ∧
      r.Data.length =
        min l ((db.deviceData.filter (fun d => d.UnitGUID = unitGUID)).length - (p - 1) * l) := by
  have hprod : ((p : Int) - 1) * (l : Int) = (((p - 1) * l : Nat) : Int) := by
    rw [Nat.cast_mul, Nat.cast_sub hp]
    rfl
  have hw : wrapInt64 (((p : Int) - 1) * (l : Int)) = (((p - 1) * l : Nat) : Int) := by
    rw [hprod]
    apply wrapInt64_of_range
    · unfold minInt; omega
    · unfold maxInt; omega
  have hskip : 0 ≤ wrapInt64 (((p : Int) - 1) * (l : Int)) := by rw [hw]; omega
  have hl0 : (l : Int) ≠ 0 := by omega
  refine ⟨_, getDeviceData_ok db unitGUID p l hskip hl0, rfl, ?_, ?_⟩
  · simp only [hw, Int.toNat_ofNat, Int.natAbs_ofNat]
  · simp only [hw, Int.toNat_ofNat, Int.natAbs_ofNat, List.length_take, List.length_drop]

/-! ## Pagination: the properties C12 - C14 -/

/-- C12. For every total of at least 0 and every limit of at least 1 (both
`int64` values), the page count the code computes is the ceiling of
total / limit: it is at least 0, that many pages of `limit` hold `total`
records, and no smaller count does. It is the TotalPages field of what
`GetDeviceDataByUnitGUID` returns, next to Total = total. Total 12 with limit 5
gives 3, total 10 with limit 5 gives 2, total 0 gives 0. -/
theorem C12_total_pages_is_ceiling (total limit : Int) (ht : 0 ≤ total)
    (hmax : total ≤ maxInt) (hl : 1 ≤ limit) :
    0 ≤ totalPagesOf total limit ∧
    total ≤ totalPagesOf total limit * limit ∧
    (∀ k : Int, 0 ≤ k → total ≤ k * limit → totalPagesOf total limit ≤ k) ∧
    (∀ (db : MongoDB) (unitGUID : String) (page : Int),
      ((db.deviceData.filter (fun d => d.UnitGUID = unitGUID)).length : Int) = total →
      0 ≤ wrapInt64 ((page - 1) * limit) →
      ∃ r, GetDeviceDataByUnitGUID db none unitGUID page limit = Res.ok r ∧
        r.Total = total ∧ r.TotalPages = totalPagesOf total limit) ∧
    (total = 0 → totalPagesOf total limit = 0) ∧
    totalPagesOf 12 5 = 3 ∧ totalPagesOf 10 5 = 2 ∧ totalPagesOf 0 5 = 0 := by
  obtain ⟨h0, h1, h2⟩ := totalPagesOf_ceil total limit ht hmax hl
  refine ⟨h0, h1, h2, ?_, ?_, by decide, by decide, by decide⟩
  · intro db unitGUID page hn hskip
    refine ⟨_, getDeviceData_ok db unitGUID page limit hskip (by omega), ?_, ?_⟩
    · exact hn
    · simp only [hn]
  · intro hz
    have := h2 0 (le_refl 0) (by omega)
    omega

/-- C12, witness: twelve stored records of a device, page 2, limit 5. -/
theorem C12_total_pages_is_ceiling_witness :
    ∃ r, GetDeviceDataByUnitGUID twelveRecords none "G1" 2 5 = Res.ok r ∧
      r.Total = 12 ∧ r.TotalPages = totalPagesOf 12 5 :=
  (C12_total_pages_is_ceiling 12 5 (by decide) (by decide) (by decide)).2.2.2.1
    twelveRecords "G1" 2 (by decide) (by decide)

/-- C13, the code at the failing input. Twelve records of device G1 are stored
in the order of their creation times 1 .. 12. For page 2 and limit 5 the query
returns five records, Total 12 and TotalPages 3, but the records are those
created at 6 .. 10, oldest first, where the newest-first page holds those
created at 7, 6, 5, 4, 3; for page 1 it returns the five oldest records. The
sort of the query changes no order at all, because it sorts on the key
`timestamp`, which no stored record has. -/
theorem C13_page_is_not_newest_first :
    GetDeviceDataByUnitGUID twelveRecords none "G1" 2 5 =
      Res.ok { Data := [stamped 6, stamped 7, stamped 8, stamped 9, stamped 10],
               Total := 12, Page := 2, Limit := 5, TotalPages := 3 } ∧
    pageNewestFirst twelveRecords "G1" 2 5 =
      [stamped 7, stamped 6, stamped 5, stamped 4, stamped 3] ∧
    GetDeviceDataByUnitGUID twelveRecords none "G1" 1 5 =
      Res.ok { Data := [stamped 1, stamped 2, stamped 3, stamped 4, stamped 5],
               Total := 12, Page := 1, Limit := 5, TotalPages := 3 } ∧
    pageNewestFirst twelveRecords "G1" 1 5 =
      [stamped 12, stamped 11, stamped 10, stamped 9, stamped 8] ∧
    ∀ docs : List DeviceData, sortTimestampDesc docs = docs :=
  ⟨by decide, by decide, by decide, by decide, sortTimestampDesc_eq⟩

/-- C14, refuted as stated. The request `?page=9223372036854775807` passes
`getPaginationParams` unchanged, with the default limit 10. The exact offset
is 92233720368547758060; in `int64` it wraps to -20, and the store rejects the
negative skip. With page 184467440737095518 and limit 100 the offset wraps to
the positive value 84, so a wrong page is served without any error. -/
theorem C14_counterexample :
    getPaginationParams [("page", "9223372036854775807")] = (9223372036854775807, 10) ∧
    (9223372036854775807 - 1) * 10 = (92233720368547758060 : Int) ∧
    wrapInt64 ((9223372036854775807 - 1) * 10) = -20 ∧
    getDeviceDataByGUID twelveRecords none "G1" [("page", "9223372036854775807")] =
      Res.err "BSON field skip value must be >= 0" ∧
    getPaginationParams [("page", "184467440737095518"), ("limit", "100")] =
      (184467440737095518, 100) ∧
    wrapInt64 ((184467440737095518 - 1) * 100) = 84 := by
  decide

/-- C14 (amended). For every page and limit `getPaginationParams` returns, the
limit is not zero, so the division total / limit never divides by zero and the
query never panics. When the exact offset (page - 1) * limit is at most
9223372036854775807, which holds for every page up to 92233720368547759, the
offset computed in `int64` is that exact product and is not negative, and the
query returns. -/
theorem C14_skip_exact_for_bounded_pages (q : Query)
    (hfit : ((getPaginationParams q).1 - 1) * (getPaginationParams q).2 ≤ maxInt) :
    wrapInt64 (((getPaginationParams q).1 - 1) * (getPaginationParams q).2) =
      ((getPaginationParams q).1 - 1) * (getPaginationParams q).2 ∧
    0 ≤ wrapInt64 (((getPaginationParams q).1 - 1) * (getPaginationParams q).2) ∧
    (getPaginationParams q).2 ≠ 0 ∧
    (∀ (db : MongoDB) (fault : Option String) (unitGUID : String),
      getDeviceDataByGUID db fault unitGUID q ≠ Res.panic) ∧
    (∀ (db : MongoDB) (unitGUID : String),
      ∃ r, getDeviceDataByGUID db none unitGUID q = Res.ok r) ∧
    (∀ q2 : Query, (getPaginationParams q2).1 ≤ 92233720368547759 →
      ((getPaginationParams q2).1 - 1) * (getPaginationParams q2).2 ≤ maxInt) := by
  obtain ⟨hp, hl1, hl2, _⟩ := getPaginationParams_bounds q
  have hnn : 0 ≤ ((getPaginationParams q).1 - 1) * (getPaginationParams q).2 :=
    Int.mul_nonneg (by omega) (by omega)
  have hw := wrapInt64_of_range _ (by unfold minInt; omega) hfit
  have hl0 : (getPaginationParams q).2 ≠ 0 := by omega
  refine ⟨hw, by rw [hw]; exact hnn, hl0, ?_, ?_, ?_⟩
  · intro db fault unitGUID
    exact getDeviceData_no_panic db fault unitGUID _ _ hl0
  · intro db unitGUID
    exact ⟨_, getDeviceData_ok db unitGUID _ _ (by rw [hw]; exact hnn) hl0⟩
  · intro q2 hpage
    obtain ⟨hp2, hl21, hl22, _⟩ := getPaginationParams_bounds q2
    have h1 : ((getPaginationParams q2).1 - 1) * (getPaginationParams q2).2 ≤
        ((getPaginationParams q2).1 - 1) * 100 :=
      Int.mul_le_mul_of_nonneg_left hl22 (by omega)
    unfold maxInt
    omega

/-- C14, witness: the request `?page=2&limit=5`. -/
theorem C14_skip_exact_for_bounded_pages_witness :
    wrapInt64 (((getPaginationParams [("page", "2"), ("limit", "5")]).1 - 1) *
        (getPaginationParams [("page", "2"), ("limit", "5")]).2) =
      ((getPaginationParams [("page", "2"), ("limit", "5")]).1 - 1) *
        (getPaginationParams [("page", "2"), ("limit", "5")]).2 :=
  (C14_skip_exact_for_bounded_pages [("page", "2"), ("limit", "5")] (by decide)).1

end Biocad
